import Mathlib

/-
Verification of the VEGA "Time Crystal" store (src/vtc/time_crystal.py) and the
Infinity-Loop orchestrator (src/agents/orchestrator.py) against their
natural-language specification.

The persisted JSON document is embedded as an association list of string keys
to JSON-like values, in insertion order, exactly the shape `json.dump`/`json.load`
round-trips.  Python `datetime.now().isoformat()` timestamps are modelled by a
caller-supplied string argument (no claim depends on their contents).
-/

set_option maxRecDepth 8000

namespace Vega

/-- JSON-like values: everything the Time Crystal reads or writes.
`num` models Python ints, `fnum` Python floats (as exact rationals; the only
float the modelled code manipulates is the resonance level, where the Python
float arithmetic `max(0.1, min(10.0, 1.5))` is exact). -/
inductive JVal where
  | null
  | bool (b : Bool)
  | num (n : Int)
  | fnum (q : Rat)
  | str (s : String)
  | arr (l : List JVal)
  | obj (m : List (String × JVal))

/-- Python dict assignment `d[k] = v`: replace in place when the key exists
(keeping insertion order), otherwise append at the end. -/
def setKey {α : Type} : List (String × α) → String → α → List (String × α)
  | [], k, v => [(k, v)]
  | (k', v') :: rest, k, v =>
    if k' = k then (k, v) :: rest else (k', v') :: setKey rest k v

/-- Python dict lookup `d.get(k)` on an association list with unique keys. -/
def lookupKey {α : Type} : List (String × α) → String → Option α
  | [], _ => none
  | (k', v) :: rest, k => if k' = k then some v else lookupKey rest k

/-- The whole persisted document. -/
abbrev Doc := List (String × JVal)

/-- The backing file of a `TimeCrystal`: missing, unparseable, or holding a
document.  `json.dump` always rewrites the whole file. -/
inductive FileState where
  | missing
  | corrupt
  | data (d : Doc)

/-- `TimeCrystal._read_data`: `json.load` of the file; a missing or corrupt
file degrades to the empty document `{}`. -/
def readData : FileState → Doc
  | .data d => d
  | _ => []

/-- `TimeCrystal._write_data`: a full rewrite of the backing file. -/
def writeData (_fs : FileState) (d : Doc) : FileState := .data d

/-- The initial document `_ensure_file_exists` writes for a fresh store. -/
def initialData (ts : String) : Doc :=
  [("meta", .obj [("created", .str ts), ("version", .str "1.0.0"),
                  ("system", .str "VEGA Time Crystal")]),
   ("agents", .obj []),
   ("events", .arr []),
   ("communications", .arr []),
   ("infinity_loop", .obj [("current_iteration", .num 0), ("phase", .str "idle"),
                           ("history", .arr [])]),
   ("modules", .obj [])]

/-- `TimeCrystal._ensure_file_exists`: writes the initial document only when
the backing file does not exist; an existing (even corrupt) file is left
untouched. -/
def ensure_file_exists (fs : FileState) (ts : String) : FileState :=
  match fs with
  | .missing => .data (initialData ts)
  | other => other

/-- `TimeCrystal.clear`: the body is exactly one call to
`_ensure_file_exists`. -/
def tc_clear (fs : FileState) (ts : String) : FileState :=
  ensure_file_exists fs ts

/-- `if k not in current: current[k] = v` — the guard each mutating method
uses to create a missing section. -/
def ensureKey (cur : Doc) (k : String) (v : JVal) : Doc :=
  match lookupKey cur k with
  | none => setKey cur k v
  | some _ => cur

/-- The in-memory part of `TimeCrystal.store`, between `_read_data` and
`_write_data`: create a missing category as a dict, then upsert into a dict
category or append to a list category; any other shape falls through both
`isinstance` branches and the document is written back unchanged. -/
def store_mutate (key : String) (data : JVal) (category : String) (ts : String)
    (cur : Doc) : Doc :=
  let cur := ensureKey cur category (.obj [])
  match lookupKey cur category with
  | some (JVal.obj m) =>
      setKey cur category
        (.obj (setKey m key (.obj [("data", data), ("timestamp", .str ts)])))
  | some (JVal.arr l) =>
      setKey cur category
        (.arr (l ++ [.obj [("key", .str key), ("data", data), ("timestamp", .str ts)]]))
  | _ => cur

/-- `TimeCrystal.store`: read the full document, mutate in memory, rewrite. -/
def tc_store (fs : FileState) (key : String) (data : JVal) (category : String)
    (ts : String) : FileState :=
  writeData fs (store_mutate key data category ts (readData fs))

/-- Python truthiness, for the `if entry:` test in `retrieve`. -/
def pyTruthy : JVal → Bool
  | .null => false
  | .bool b => b
  | .num n => n != 0
  | .fnum q => q != 0
  | .str s => !s.isEmpty
  | .arr l => !l.isEmpty
  | .obj m => !m.isEmpty

/-- `TimeCrystal.retrieve`: the stored payload under `key` in a dict-shaped
category, `None` (`none`) otherwise.  Entries written by `store` are non-empty
dicts, so the truthiness test only rejects degenerate entries. -/
def tc_retrieve (fs : FileState) (key : String) (category : String) : Option JVal :=
  match lookupKey (readData fs) category with
  | some (JVal.obj m) =>
      match lookupKey m key with
      | some entry =>
          if pyTruthy entry then
            match entry with
            | .obj em => lookupKey em "data"
            | _ => none
          else none
      | none => none
  | _ => none

/-- The event record `log_event` appends and returns. -/
def event_record (etype : String) (data : JVal) (source ts : String) : JVal :=
  .obj [("type", .str etype), ("source", .str source), ("data", data),
        ("timestamp", .str ts)]

/-- The in-memory part of `TimeCrystal.log_event`.  `none` models the
`AttributeError` Python raises (before any write) when `current["events"]`
exists but is not a list; unreachable from documents this store writes. -/
def log_event_mutate (etype : String) (data : JVal) (source ts : String)
    (cur : Doc) : Option Doc :=
  let cur := ensureKey cur "events" (.arr [])
  match lookupKey cur "events" with
  | some (JVal.arr l) =>
      let l := l ++ [event_record etype data source ts]
      let l := if l.length > 1000 then l.drop (l.length - 500) else l
      some (setKey cur "events" (.arr l))
  | _ => none

/-- `TimeCrystal.log_event` (its return value is `event_record ...`, unused by
the modelled callers). -/
def tc_log_event (fs : FileState) (etype : String) (data : JVal) (source ts : String) :
    FileState :=
  match log_event_mutate etype data source ts (readData fs) with
  | some d => writeData fs d
  | none => fs

/-- The communication record `log_communication` appends and returns. -/
def comm_record (fromAgent toAgent message ts : String) : JVal :=
  .obj [("from", .str fromAgent), ("to", .str toAgent), ("message", .str message),
        ("timestamp", .str ts)]

/-- The in-memory part of `TimeCrystal.log_communication`. -/
def log_comm_mutate (fromAgent toAgent message ts : String) (cur : Doc) : Option Doc :=
  let cur := ensureKey cur "communications" (.arr [])
  match lookupKey cur "communications" with
  | some (JVal.arr l) =>
      let l := l ++ [comm_record fromAgent toAgent message ts]
      let l := if l.length > 500 then l.drop (l.length - 250) else l
      some (setKey cur "communications" (.arr l))
  | _ => none

/-- `TimeCrystal.log_communication`. -/
def tc_log_communication (fs : FileState) (fromAgent toAgent message ts : String) :
    FileState :=
  match log_comm_mutate fromAgent toAgent message ts (readData fs) with
  | some d => writeData fs d
  | none => fs

/-- The history entry `update_infinity_loop` appends. -/
def loop_entry (iteration : Int) (phase : String) (data : JVal) (ts : String) : JVal :=
  .obj [("iteration", .num iteration), ("phase", .str phase), ("data", data),
        ("timestamp", .str ts)]

/-- The in-memory part of `TimeCrystal.update_infinity_loop`.  `none` models
the `TypeError`/`KeyError` Python raises (before any write) when
`infinity_loop` is not a dict or lacks a list `history`. -/
def update_loop_mutate (iteration : Int) (phase : String) (data : JVal) (ts : String)
    (cur : Doc) : Option Doc :=
  let cur := ensureKey cur "infinity_loop"
               (.obj [("current_iteration", .num 0), ("phase", .str "idle"),
                      ("history", .arr [])])
  match lookupKey cur "infinity_loop" with
  | some (JVal.obj m) =>
      let m := setKey m "current_iteration" (.num iteration)
      let m := setKey m "phase" (.str phase)
      match lookupKey m "history" with
      | some (.arr h) =>
          let h := h ++ [loop_entry iteration phase data ts]
          let h := if h.length > 100 then h.drop (h.length - 50) else h
          some (setKey cur "infinity_loop" (.obj (setKey m "history" (.arr h))))
      | _ => none
  | _ => none

/-- `TimeCrystal.update_infinity_loop`. -/
def tc_update_infinity_loop (fs : FileState) (iteration : Int) (phase : String)
    (data : JVal) (ts : String) : FileState :=
  match update_loop_mutate iteration phase data ts (readData fs) with
  | some d => writeData fs d
  | none => fs

/-- `TimeCrystal.get_recent_events`: `events[-limit:] if events else []`.
A non-negative Python `limit` is modelled; note `events[-0:]` is the whole
list, which the `limit = 0` branch mirrors. -/
def get_recent_events (fs : FileState) (limit : Nat) : List JVal :=
  match lookupKey (readData fs) "events" with
  | some (JVal.arr l) =>
      if l.isEmpty then [] else if limit = 0 then l else l.drop (l.length - limit)
  | _ => []

/-- `TimeCrystal.get_agent_states`: `data.get("agents", {})`. -/
def get_agent_states (fs : FileState) : JVal :=
  (lookupKey (readData fs) "agents").getD (.obj [])

/-- `TimeCrystal.get_infinity_loop_status`: `data.get("infinity_loop", {})`. -/
def get_infinity_loop_status (fs : FileState) : JVal :=
  (lookupKey (readData fs) "infinity_loop").getD (.obj [])

/-- Python `len`, on the values the modelled code measures. -/
def pyLen : JVal → Int
  | .obj m => m.length
  | .arr l => l.length
  | .str s => s.length
  | _ => 0

/-- Projection: the persisted `events` list, when list-shaped. -/
def evOf (fs : FileState) : Option (List JVal) :=
  match lookupKey (readData fs) "events" with
  | some (JVal.arr l) => some l
  | _ => none

/-- Projection: the persisted `communications` list, when list-shaped. -/
def commsOf (fs : FileState) : Option (List JVal) :=
  match lookupKey (readData fs) "communications" with
  | some (JVal.arr l) => some l
  | _ => none

/-- Projection: the persisted `infinity_loop` record. -/
def infLoopOf (fs : FileState) : Option JVal :=
  lookupKey (readData fs) "infinity_loop"

/-- Projection: a field of the persisted `infinity_loop` record. -/
def loopFieldOf (fs : FileState) (k : String) : Option JVal :=
  match infLoopOf fs with
  | some (JVal.obj m) => lookupKey m k
  | _ => none

/-- Projection: the persisted `infinity_loop.history` list, when list-shaped. -/
def histOf (fs : FileState) : Option (List JVal) :=
  match loopFieldOf fs "history" with
  | some (JVal.arr l) => some l
  | _ => none

/-! ### Sequences of logging calls (for the retention claims) -/

/-- One call to a bounded-logging method of the store. -/
inductive LogOp where
  | ev (etype : String) (data : JVal) (source ts : String)
  | comm (fromAgent toAgent message ts : String)
  | loop (iteration : Int) (phase : String) (data : JVal) (ts : String)

/-- Execute one logging call against the backing file. -/
def applyLogOp (fs : FileState) : LogOp → FileState
  | .ev etype data source ts => tc_log_event fs etype data source ts
  | .comm f t m ts => tc_log_communication fs f t m ts
  | .loop i p d ts => tc_update_infinity_loop fs i p d ts

/-- Execute a sequence of logging calls in order. -/
def runLogOps (fs : FileState) (ops : List LogOp) : FileState :=
  ops.foldl applyLogOp fs

/-- The event record appended by an `ev` call, if any. -/
def evRecOf : LogOp → Option JVal
  | .ev etype data source ts => some (event_record etype data source ts)
  | _ => none

/-- The communication record appended by a `comm` call, if any. -/
def commRecOf : LogOp → Option JVal
  | .comm f t m ts => some (comm_record f t m ts)
  | _ => none

/-- The history entry appended by a `loop` call, if any. -/
def histRecOf : LogOp → Option JVal
  | .loop i p d ts => some (loop_entry i p d ts)
  | _ => none

/-- All event records a call sequence ever appended, in append order. -/
def allEvents (ops : List LogOp) : List JVal := ops.filterMap evRecOf

/-- All communication records a call sequence ever appended. -/
def allComms (ops : List LogOp) : List JVal := ops.filterMap commRecOf

/-- All history entries a call sequence ever appended. -/
def allHist (ops : List LogOp) : List JVal := ops.filterMap histRecOf

/-- The last `n` elements of `L` (for `n ≤ L.length`): the retained suffix. -/
def lastN (L : List JVal) (n : Nat) : List JVal := L.drop (L.length - n)

/-- The length of a bounded log after `n` appends under the store's rule
"append; if the length exceeds `cap`, keep only the last `keep`". -/
def blen (cap keep : Nat) : Nat → Nat
  | 0 => 0
  | n + 1 => if blen cap keep n + 1 > cap then keep else blen cap keep n + 1

/-- The persisted shape every bounded log keeps: exactly the most recent
`blen`-many appended records, as a suffix (`lastN`). -/
def LogInv (ops : List LogOp) (fs : FileState) : Prop :=
  ∃ d m, fs = .data d ∧
    lookupKey d "events"
      = some (.arr (lastN (allEvents ops) (blen 1000 500 (allEvents ops).length))) ∧
    lookupKey d "communications"
      = some (.arr (lastN (allComms ops) (blen 500 250 (allComms ops).length))) ∧
    lookupKey d "infinity_loop" = some (.obj m) ∧
    lookupKey m "history"
      = some (.arr (lastN (allHist ops) (blen 100 50 (allHist ops).length)))

/-! ### Concurrency model for the lock discipline

`store`, `log_event`, `log_communication` and `update_infinity_loop` all run
as `_read_data(); <pure in-memory mutation>; _write_data(...)`, and
`self.lock` is acquired *inside* `_read_data` and `_write_data` separately
(src/vtc/time_crystal.py lines 43-56) — it is released between the read and
the write.  A concurrent execution of two such calls is therefore an
interleaving of four atomic steps: each thread's locked read (which takes a
snapshot) and its locked write (which writes the mutation of its snapshot). -/

/-- One thread of a read-mutate-write call: take the snapshot if not yet
taken, else perform the single write of the mutated snapshot. -/
def threadStep (m : Doc → Doc) (fs : FileState) (snap : Option Doc) (done : Bool) :
    FileState × Option Doc × Bool :=
  match snap, done with
  | none, _ => (fs, some (readData fs), false)
  | some d, false => (writeData fs (m d), some d, true)
  | some d, true => (fs, some d, true)

/-- Joint state of the file and two in-flight calls. -/
structure TwoCalls where
  fs : FileState
  snap1 : Option Doc
  snap2 : Option Doc
  done1 : Bool
  done2 : Bool

/-- Run a schedule: `true` lets call 1 take its next atomic (locked) step,
`false` lets call 2. -/
def runSched (m1 m2 : Doc → Doc) : List Bool → TwoCalls → TwoCalls
  | [], st => st
  | b :: rest, st =>
      if b then
        let r := threadStep m1 st.fs st.snap1 st.done1
        runSched m1 m2 rest { st with fs := r.1, snap1 := r.2.1, done1 := r.2.2 }
      else
        let r := threadStep m2 st.fs st.snap2 st.done2
        runSched m1 m2 rest { st with fs := r.1, snap2 := r.2.1, done2 := r.2.2 }

/-- Final file contents after two concurrent read-mutate-write calls run
under a given lock-acquisition schedule. -/
def interleave2 (m1 m2 : Doc → Doc) (sched : List Bool) (fs : FileState) : FileState :=
  (runSched m1 m2 sched ⟨fs, none, none, false, false⟩).fs

/-! ### Agents (src/agents/base_agent.py and subclasses)

Agents are Python objects aliased from several places (the orchestrator's
registry, its `ae_agent`/`cross_agent` fields, broadcast target lists), so the
embedding keeps them in a heap indexed by allocation order and refers to them
by index.  The mutable `self.state` dict is kept as an association list of
`JVal`s, exactly what `_save_state` serializes. -/

/-- One agent object.  `has_update_resonance` mirrors the
`hasattr(agent, 'update_resonance')` duck-typing check (true only for
`AEAgent`); `resonance_level`, `specialty`, `connected_modules`,
`relay_history` and `event_queue` are the subclass-specific attributes the
modelled code paths touch. -/
structure AgentObj where
  name : String
  agent_type : String
  state : List (String × JVal)
  message_queue : List JVal
  has_update_resonance : Bool
  resonance_level : Rat
  specialty : String
  connected_modules : List String
  relay_history : List JVal
  event_queue : List JVal

/-- The `self.state` dict `BaseAgent.__init__` builds. -/
def baseState (ts : String) : List (String × JVal) :=
  [("status", .str "initialized"), ("created", .str ts), ("last_action", .null),
   ("decisions_made", .num 0), ("messages_sent", .num 0),
   ("messages_received", .num 0)]

/-- The heap of agent objects plus the shared Time Crystal file. -/
structure World where
  heap : List AgentObj
  tc : FileState

/-- `self.state[k] += 1` on an integer state field (always present in the
states the constructors build). -/
def bumpNum (st : List (String × JVal)) (k : String) : List (String × JVal) :=
  match lookupKey st k with
  | some (JVal.num n) => setKey st k (.num (n + 1))
  | _ => st

/-- `BaseAgent._save_state`: store the `{"type", "state"}` snapshot under the
agent's name in the `agents` category. -/
def save_state (w : World) (i : Nat) (ts : String) : World :=
  match w.heap.get? i with
  | some a =>
      { w with tc := (tc_store w.tc a.name
          (.obj [("type", .str a.agent_type), ("state", .obj a.state)]) "agents" ts) }
  | none => w

/-- Replace the heap object at index `i`. -/
def setAgent (w : World) (i : Nat) (a : AgentObj) : World :=
  { w with heap := w.heap.set i a }

/-- `BaseAgent.__init__` for a fresh object: allocate it and save its first
snapshot.  Returns the new heap index. -/
def alloc_agent (w : World) (a : AgentObj) (ts : String) : World × Nat :=
  let i := w.heap.length
  (save_state { w with heap := w.heap ++ [a] } i ts, i)

/-- An `AEAgent` right after `__init__` (it alone defines
`update_resonance`; `resonance_level` starts at `1.0`). -/
def mkAEAgent (name ts : String) : AgentObj :=
  ⟨name, "AE-Agent", baseState ts, [], true, 1, "", [], [], []⟩

/-- An `AECrossAgent` right after `__init__`. -/
def mkCrossAgent (name ts : String) : AgentObj :=
  ⟨name, "AE-Cross-Agent", baseState ts, [], false, 0, "", [], [], []⟩

/-- A `MicroAgent` right after `__init__`. -/
def mkMicroAgent (name specialty ts : String) : AgentObj :=
  ⟨name, "MicroAgent", baseState ts, [], false, 0, specialty, [], [], []⟩

/-- `str[:100] if len(str) > 100 else str`. -/
def truncate100 (s : String) : String :=
  if s.length > 100 then s.take 100 else s

/-- `BaseAgent.receive`: enqueue the message, bump `messages_received`, save
the snapshot, then log a `message_received` event. -/
def agent_receive (w : World) (j : Nat) (message senderName ts : String) : World :=
  match w.heap.get? j with
  | some t =>
      let t := { t with
        message_queue := t.message_queue ++
          [.obj [("from", .str senderName), ("message", .str message),
                 ("timestamp", .str ts)]],
        state := bumpNum t.state "messages_received" }
      let w := save_state (setAgent w j t) j ts
      { w with tc := (tc_log_event w.tc "message_received"
          (.obj [("from", .str senderName), ("message", .str (truncate100 message))])
          t.name ts) }
  | none => w

/-- `BaseAgent.communicate`: log the communication, deliver synchronously via
the target's `receive`, then bump the sender's `messages_sent`, set its
`last_action` and save its snapshot.  Sender and target may alias (`i = j`). -/
def communicate (w : World) (i j : Nat) (message ts : String) : World :=
  match w.heap.get? i, w.heap.get? j with
  | some s, some t =>
      let w := { w with tc := tc_log_communication w.tc s.name t.name message ts }
      let w := agent_receive w j message s.name ts
      match w.heap.get? i with
      | some s2 =>
          let s2 := { s2 with
            state := setKey (bumpNum s2.state "messages_sent") "last_action"
                       (.str ("Sent message to " ++ t.name)) }
          save_state (setAgent w i s2) i ts
      | none => w
  | _, _ => w

/-- `BaseAgent.process_pending_messages`: FIFO-drain the whole inbox. -/
def process_pending_messages (w : World) (i : Nat) : World × List JVal :=
  match w.heap.get? i with
  | some a => (setAgent w i { a with message_queue := [] }, a.message_queue)
  | none => (w, [])

/-- `AEAgent.update_resonance`: clamp to `[0.1, 10.0]`, mirror the value into
the state dict, save. -/
def update_resonance (w : World) (i : Nat) (level : Rat) (ts : String) : World :=
  match w.heap.get? i with
  | some a =>
      let r := max (1/10 : Rat) (min 10 level)
      let a := { a with resonance_level := r,
                        state := setKey a.state "resonance_level" (.fnum r) }
      save_state (setAgent w i a) i ts
  | none => w

/-- `AECrossAgent.broadcast`: `communicate` with every target in order, then
log one `broadcast` event with the recipient count. -/
def broadcast (w : World) (i : Nat) (message : String) (targets : List Nat)
    (ts : String) : World :=
  let w := targets.foldl (fun w j => communicate w i j message ts) w
  match w.heap.get? i with
  | some a =>
      { w with tc := (tc_log_event w.tc "broadcast"
          (.obj [("message", .str (truncate100 message)),
                 ("recipient_count", .num targets.length)]) a.name ts) }
  | none => w

/-- `AECrossAgent.register_module`: add to the `connected_modules` set (a
Python set; modelled as append-if-absent, no claim depends on its iteration
order), mirror it into the state dict, save, log a `module_registered`
event. -/
def register_module (w : World) (i : Nat) (moduleName ts : String) : World :=
  match w.heap.get? i with
  | some a =>
      let mods := if moduleName ∈ a.connected_modules then a.connected_modules
                  else a.connected_modules ++ [moduleName]
      let a := { a with connected_modules := mods,
                        state := setKey a.state "connected_modules"
                                   (.arr (mods.map JVal.str)) }
      let w := save_state (setAgent w i a) i ts
      match w.heap.get? i with
      | some a2 =>
          { w with tc := (tc_log_event w.tc "module_registered"
              (.obj [("module", .str moduleName)]) a2.name ts) }
      | none => w
  | none => w

/-- `AECrossAgent.get_relay_stats`. -/
def get_relay_stats (w : World) (i : Nat) : JVal :=
  match w.heap.get? i with
  | some a =>
      .obj [("total_relays", .num a.relay_history.length),
            ("pending_events", .num a.event_queue.length),
            ("connected_modules", .arr (a.connected_modules.map JVal.str)),
            ("recent_relays",
             .arr (if a.relay_history.isEmpty then []
                   else a.relay_history.drop (a.relay_history.length - 10)))]
  | none => .null

/-- `AEAgent.analyze_system_state`: a pure read of the Time Crystal. -/
def analyze_system_state (w : World) (ts : String) : JVal :=
  let agent_states := get_agent_states w.tc
  let events := get_recent_events w.tc 50
  let loop_status := get_infinity_loop_status w.tc
  .obj [("total_agents", .num (pyLen agent_states)),
        ("recent_events", .num events.length),
        ("infinity_loop_phase",
         (match loop_status with
          | .obj m => (lookupKey m "phase").getD (.str "unknown")
          | _ => .str "unknown")),
        ("current_iteration",
         (match loop_status with
          | .obj m => (lookupKey m "current_iteration").getD (.num 0)
          | _ => .num 0)),
        ("timestamp", .str ts)]

/-! ### Orchestrator (src/agents/orchestrator.py) -/

/-- `InfinityLoopOrchestrator`'s own mutable attributes.  `registry` is the
`self.agents` dict (name → object), with heap indices standing for the object
references; `ae_id`/`cross_id` are the `self.ae_agent`/`self.cross_agent`
references. -/
structure Orch where
  current_iteration : Int
  phase : String
  registry : List (String × Nat)
  is_running : Bool
  cycle_count : Nat
  ae_id : Nat
  cross_id : Nat

/-- `InfinityLoopOrchestrator._log`. -/
def orch_log (o : Orch) (w : World) (message ts : String) : World :=
  { w with tc := (tc_log_event w.tc "orchestrator"
      (.obj [("message", .str message), ("iteration", .num o.current_iteration),
             ("phase", .str o.phase), ("cycle", .num o.cycle_count)])
      "InfinityLoop" ts) }

/-- `InfinityLoopOrchestrator.__init__`, starting from the given crystal file
state (the `TimeCrystal()` constructor itself is `ensure_file_exists`). -/
def init_orchestrator (fs : FileState) (ts : String) : Orch × World :=
  let w : World := ⟨[], fs⟩
  let p1 := alloc_agent w (mkAEAgent "AE-Master" ts) ts
  let p2 := alloc_agent p1.1 (mkCrossAgent "Æ-Orchestrator" ts) ts
  let o : Orch :=
    ⟨0, "idle", [("AE-Master", p1.2), ("Æ-Orchestrator", p2.2)], false, 0, p1.2, p2.2⟩
  (o, orch_log o p2.1 "Infinity Loop Orchestrator initialized" ts)

/-- `InfinityLoopOrchestrator.register_agent`: a plain dict assignment (so a
duplicate name silently replaces the entry), then `register_module` on the
cross agent and a log line.  `i` is the passed agent object. -/
def register_agent (o : Orch) (w : World) (i : Nat) (ts : String) : Orch × World :=
  match w.heap.get? i with
  | some a =>
      let o := { o with registry := setKey o.registry a.name i }
      let w := register_module w o.cross_id a.name ts
      (o, orch_log o w ("Registered agent: " ++ a.name) ts)
  | none => (o, w)

/-- `InfinityLoopOrchestrator.create_micro_agent`. -/
def create_micro_agent (o : Orch) (w : World) (name specialty ts : String) :
    Orch × World :=
  let p := alloc_agent w (mkMicroAgent name specialty ts) ts
  register_agent o p.1 p.2 ts

/-- Phase 3 (`_phase_resonance_analysis`): persist the phase, log, aggregate a
system analysis and each registered agent's status; no agent mutation. -/
def phase_resonance_analysis (o : Orch) (w : World) (ts : String) :
    Orch × World × JVal :=
  let o := { o with phase := "resonance_analysis" }
  let w := { w with tc := tc_update_infinity_loop w.tc 3 "resonance_analysis" .null ts }
  let w := orch_log o w "Starting Phase 3: Resonance Analysis" ts
  let system_analysis := analyze_system_state w ts
  let agent_resonance : List (String × JVal) := o.registry.map (fun p =>
    match w.heap.get? p.2 with
    | some a =>
        (p.1, .obj [("status", (lookupKey a.state "status").getD (.str "unknown")),
                    ("decisions", (lookupKey a.state "decisions_made").getD (.num 0)),
                    ("messages", (lookupKey a.state "messages_sent").getD (.num 0))])
    | none => (p.1, .null))
  let result : JVal :=
    .obj [("phase", .str "resonance_analysis"), ("iteration", .num 3),
          ("system_analysis", system_analysis),
          ("agent_resonance", .obj agent_resonance), ("timestamp", .str ts)]
  let w := orch_log o w "Phase 3 complete: Resonance analyzed" ts
  (o, w, result)

/-- The body of phase 5's first loop: `if hasattr(agent, 'update_resonance'):
agent.update_resonance(1.5)`. -/
def tune_step (ts : String) (w : World) (p : String × Nat) : World :=
  match w.heap.get? p.2 with
  | some a => if a.has_update_resonance then update_resonance w p.2 (3/2) ts else w
  | none => w

/-- The body of phase 5's drain loop: `messages =
agent.process_pending_messages()` plus the appended action record. -/
def drain_step (acc : World × List JVal) (p : String × Nat) : World × List JVal :=
  let r := process_pending_messages acc.1 p.2
  (r.1, acc.2 ++ [.obj [("agent", .str p.1),
                        ("processed_messages", .num r.2.length)]])

/-- Phase 5 (`_phase_optimization`): persist the phase, tune every agent that
exposes `update_resonance`, broadcast via the cross agent to every registered
agent, then drain each agent's inbox, recording the per-agent count. -/
def phase_optimization (o : Orch) (w : World) (ts : String) : Orch × World × JVal :=
  let o := { o with phase := "optimization" }
  let w := { w with tc := tc_update_infinity_loop w.tc 5 "optimization" .null ts }
  let w := orch_log o w "Starting Phase 5: Optimization" ts
  let w := o.registry.foldl (tune_step ts) w
  let w := broadcast w o.cross_id "Optimization phase initiated"
             (o.registry.map Prod.snd) ts
  let drained := o.registry.foldl drain_step (w, [])
  let w := drained.1
  let result : JVal :=
    .obj [("phase", .str "optimization"), ("iteration", .num 5),
          ("optimization_actions", .arr drained.2),
          ("cross_module_status", get_relay_stats w o.cross_id),
          ("timestamp", .str ts)]
  let w := orch_log o w "Phase 5 complete: System optimized" ts
  (o, w, result)

/-- Phase 8 (`_phase_stabilization`): persist the phase, force every agent's
status to `"stable"` and save each snapshot, recompute the analysis, bump
`cycle_count`. -/
def stab_step (ts : String) (w : World) (p : String × Nat) : World :=
  match w.heap.get? p.2 with
  | some a => save_state (setAgent w p.2
      { a with state := setKey a.state "status" (.str "stable") }) p.2 ts
  | none => w

def phase_stabilization (o : Orch) (w : World) (ts : String) : Orch × World × JVal :=
  let o := { o with phase := "stabilization" }
  let w := { w with tc := tc_update_infinity_loop w.tc 8 "stabilization" .null ts }
  let w := orch_log o w "Starting Phase 8: Stabilization" ts
  let w := o.registry.foldl (stab_step ts) w
  let final_analysis := analyze_system_state w ts
  let o := { o with cycle_count := o.cycle_count + 1 }
  let result : JVal :=
    .obj [("phase", .str "stabilization"), ("iteration", .num 8),
          ("system_stable", .bool true), ("cycle_completed", .num o.cycle_count),
          ("final_analysis", final_analysis),
          ("active_agents", .num o.registry.length), ("timestamp", .str ts)]
  let w := orch_log o w
    ("Phase 8 complete: System stabilized (Cycle " ++ toString o.cycle_count ++ ")") ts
  (o, w, result)

/-- Intermediate iterations (`_phase_intermediate`): persist phase/iteration
only; no log line, no agent mutation. -/
def phase_intermediate (o : Orch) (w : World) (iteration : Int) (ts : String) :
    Orch × World × JVal :=
  let o := { o with phase := "intermediate_" ++ toString iteration }
  let w := { w with tc := (tc_update_infinity_loop w.tc iteration
               ("intermediate_" ++ toString iteration) .null ts) }
  let result : JVal :=
    .obj [("phase", .str ("intermediate_" ++ toString iteration)),
          ("iteration", .num iteration), ("status", .str "intermediate_processing"),
          ("timestamp", .str ts)]
  (o, w, result)

/-- `InfinityLoopOrchestrator.run_iteration`. -/
def run_iteration (o : Orch) (w : World) (n : Int) (ts : String) : Orch × World × JVal :=
  let o := { o with current_iteration := n }
  if n = 3 then phase_resonance_analysis o w ts
  else if n = 5 then phase_optimization o w ts
  else if n = 8 then phase_stabilization o w ts
  else phase_intermediate o w n ts

/-- The loop body of `run_full_cycle`, generic in the iteration step so that a
step that raises (`Sum.inl`, carrying the object state at the raise) can be
expressed: a Python exception propagates out of the `for` loop, skipping the
rest of the function. -/
def cycle_loop (step : Int → Orch × World → (Orch × World) ⊕ (Orch × World × JVal)) :
    List Int → Orch × World → List JVal → (Orch × World) ⊕ (Orch × World × List JVal)
  | [], ow, acc => .inr (ow.1, ow.2, acc)
  | i :: rest, ow, acc =>
      match step i ow with
      | .inl ow' => .inl ow'
      | .inr (o, w, r) => cycle_loop step rest (o, w) (acc ++ [r])

/-- `InfinityLoopOrchestrator.run_full_cycle`, generic in the iteration step:
log, set `is_running`, run iterations 1..8 collecting results (the
`time.sleep(0.1)` pauses after 3/5/8 have no observable effect here), then
reset `is_running`, set the phase and log.  There is no `try`/`finally`: on
`Sum.inl` the tail never runs. -/
def run_full_cycle_gen
    (step : Int → Orch × World → (Orch × World) ⊕ (Orch × World × JVal))
    (o : Orch) (w : World) (ts : String) : (Orch × World) ⊕ (Orch × World × JVal) :=
  let w := orch_log o w "Starting full 3-5-8 cycle" ts
  let o := { o with is_running := true }
  match cycle_loop step [1, 2, 3, 4, 5, 6, 7, 8] (o, w) [] with
  | .inl ow => .inl ow
  | .inr (o, w, results) =>
      let o := { o with is_running := false, phase := "cycle_complete" }
      let summary : JVal :=
        .obj [("cycle_number", .num o.cycle_count), ("iterations", .arr results),
              ("total_agents", .num o.registry.length), ("completed_at", .str ts)]
      let w := orch_log o w ("Cycle " ++ toString o.cycle_count ++ " completed") ts
      .inr (o, w, summary)

/-- `run_full_cycle` as written: every iteration returns normally. -/
def run_full_cycle (o : Orch) (w : World) (ts : String) :
    (Orch × World) ⊕ (Orch × World × JVal) :=
  run_full_cycle_gen (fun i ow => .inr (run_iteration ow.1 ow.2 i ts)) o w ts

/-- The phase name the spec assigns to each iteration number. -/
def phaseOfIter (n : Int) : String :=
  if n = 3 then "resonance_analysis"
  else if n = 5 then "optimization"
  else if n = 8 then "stabilization"
  else "intermediate_" ++ toString n

/-- `run_full_cycle` when the iteration-`k` call raises at its first fallible
operation (a `StorageUnavailable` write failure — the spec's error model;
write failures are fatal to the calling operation).  In the source,
`run_iteration` first performs the infallible in-memory assignment
`self.current_iteration = k`, and each `_phase_*` method's first statement is
the infallible `self.phase = <k's phase name>`; the next statement is
`update_infinity_loop`, whose file write is the first operation that can
raise.  The orchestrator object at the raise therefore already carries
iteration `k` and `k`'s phase name (`phaseOfIter k`). -/
def run_full_cycle_failing_at (k : Int) (o : Orch) (w : World) (ts : String) :
    (Orch × World) ⊕ (Orch × World × JVal) :=
  run_full_cycle_gen
    (fun i ow =>
      if i = k then
        .inl ({ ow.1 with current_iteration := k, phase := phaseOfIter k }, ow.2)
      else .inr (run_iteration ow.1 ow.2 i ts)) o w ts

/-! ### Concrete scenarios used by the claims -/

/-- 1200 consecutive `log_event` calls on a fresh store (C8's scenario). -/
def ops1200 : List LogOp :=
  (List.range 1200).map (fun i : Nat => .ev "test_event" (.num (i : Int)) "system" "t")

/-- The 1200 event records those calls push, in push order. -/
def pushed1200 : List JVal :=
  (List.range 1200).map
    (fun i : Nat => event_record "test_event" (.num (i : Int)) "system" "t")

/-- A fresh orchestrator (fresh crystal file) with three micro agents
`A`, `B`, `C` registered (C9's scenario). -/
def c9_base : Orch × World :=
  let p := init_orchestrator (ensure_file_exists .missing "t0") "t0"
  let p := create_micro_agent p.1 p.2 "A" "alpha" "t1"
  let p := create_micro_agent p.1 p.2 "B" "beta" "t2"
  create_micro_agent p.1 p.2 "C" "gamma" "t3"

/-- `run_iteration(5)` on that orchestrator. -/
def c9_run : Orch × World × JVal := run_iteration c9_base.1 c9_base.2 5 "t5"

/-- A fresh orchestrator for the full-cycle failure scenario. -/
def c5_base : Orch × World := init_orchestrator (ensure_file_exists .missing "t0") "t0"

/-- The orchestrator object as left behind when `run_iteration(4)` raises at
its first fallible operation mid-cycle (the exception propagates out of
`run_full_cycle`, whose trailing assignments never run). -/
def c5_fail_orch : Orch :=
  match run_full_cycle_failing_at 4 c5_base.1 c5_base.2 "t1" with
  | .inl ow => ow.1
  | .inr r => r.1

/-- The store state after one event has been logged on a fresh store
(C4's failing input: a non-empty store whose backing file exists). -/
def c4_state : FileState :=
  tc_log_event (ensure_file_exists .missing "t0") "boot" .null "system" "t1"

/-- The shape test under which `retrieve` can see what `store` wrote: the
category is absent (so `store` creates it key-indexed) or already a dict. -/
def keyedOrAbsent (fs : FileState) (c : String) : Bool :=
  match lookupKey (readData fs) c with
  | none => true
  | some (JVal.obj _) => true
  | _ => false

/-- A sequence of `store` calls to one key and category (payload, timestamp). -/
def applyStores (fs : FileState) (k c : String) (writes : List (JVal × String)) :
    FileState :=
  writes.foldl (fun fs p => tc_store fs k p.1 c p.2) fs

/-- A store whose `events` log stands exactly at the 1000-entry cap
(C7's boundary input). -/
def c7_full_store : FileState :=
  .data [("events", .arr (List.replicate 1000 .null))]

/-- Two concurrent `store` calls on a fresh store under the schedule
read₁-read₂-write₁-write₂, which the per-method lock (held only inside
`_read_data` and `_write_data`) permits. -/
def lostUpdateRun : FileState :=
  interleave2 (store_mutate "k1" (.str "v1") "agents" "t1")
              (store_mutate "k2" (.str "v2") "agents" "t2")
              [true, false, true, false] (ensure_file_exists .missing "t0")

/-- A document key that is absent or holds a list (the shape `log_event` and
`log_communication` need to follow their main path). -/
def arrOrAbsent (cur : Doc) (k : String) : Bool :=
  match lookupKey cur k with
  | none => true
  | some (JVal.arr _) => true
  | _ => false

/-- The `infinity_loop` section is absent or is a dict with a list `history`
(the shape `update_infinity_loop` needs to follow its main path). -/
def loopWF (cur : Doc) : Bool :=
  match lookupKey cur "infinity_loop" with
  | none => true
  | some (JVal.obj m) =>
      (match lookupKey m "history" with
       | some (JVal.arr _) => true
       | _ => false)
  | _ => false

/-- Well-shapedness of the backing document: the three bounded sections, when
present, have the shape every document this store writes gives them (so no
modelled operation hits a branch where Python would raise). -/
def WFtc (fs : FileState) : Bool :=
  arrOrAbsent (readData fs) "events" &&
  arrOrAbsent (readData fs) "communications" &&
  loopWF (readData fs)

/-- A field of a dict-shaped `JVal` (for reading returned result records). -/
def objField (v : JVal) (k : String) : Option JVal :=
  match v with
  | .obj m => lookupKey m k
  | _ => none

/-- The registry duplicate-registration setup: a fresh `MicroAgent` whose name
collides with the pre-registered `AE-Master`, allocated on the orchestrator's
world. -/
def c10_dup_setup : World × Nat :=
  alloc_agent c5_base.2 (mkMicroAgent "AE-Master" "duplicate" "t1") "t1"

/-! ## Theorems -/

/-! ### Association-list (Python dict) lemmas -/

theorem lookupKey_setKey_self {α : Type} (l : List (String × α)) (k : String) (v : α) :
    lookupKey (setKey l k v) k = some v := by
  induction l with
  | nil => simp [setKey, lookupKey]
  | cons p rest ih =>
      by_cases h : p.1 = k
      · simp [setKey, lookupKey, h]
      · simp [setKey, lookupKey, h, ih]

theorem lookupKey_setKey_ne {α : Type} (l : List (String × α)) (k k' : String) (v : α)
    (h : k' ≠ k) : lookupKey (setKey l k v) k' = lookupKey l k' := by
  induction l with
  | nil => simp [setKey, lookupKey, Ne.symm h]
  | cons p rest ih =>
      by_cases hp : p.1 = k
      · subst hp
        simp [setKey, lookupKey, h, Ne.symm h]
      · simp [setKey, lookupKey, hp, ih]

theorem setKey_length_of_isSome {α : Type} (l : List (String × α)) (k : String) (v : α)
    (h : (lookupKey l k).isSome = true) : (setKey l k v).length = l.length := by
  induction l with
  | nil => simp [lookupKey] at h
  | cons p rest ih =>
      by_cases hp : p.1 = k
      · simp [setKey, hp]
      · simp [lookupKey, hp] at h
        simp [setKey, hp, ih h]

theorem ensureKey_lookup_ne (cur : Doc) (k k' : String) (v : JVal) (h : k' ≠ k) :
    lookupKey (ensureKey cur k v) k' = lookupKey cur k' := by
  unfold ensureKey
  cases hx : lookupKey cur k with
  | none => simp [lookupKey_setKey_ne _ _ _ _ h]
  | some w => rfl

theorem ensureKey_lookup_of_some (cur : Doc) (k : String) (v w : JVal)
    (h : lookupKey cur k = some w) : ensureKey cur k v = cur := by
  unfold ensureKey
  simp [h]

theorem ensureKey_lookup_of_none (cur : Doc) (k : String) (v : JVal)
    (h : lookupKey cur k = none) :
    ensureKey cur k v = setKey cur k v := by
  unfold ensureKey
  simp [h]

/-! ### Bounded-length recurrence and suffix lemmas -/

theorem blen_zero (cap keep : Nat) : blen cap keep 0 = 0 := rfl

theorem blen_succ (cap keep n : Nat) :
    blen cap keep (n + 1)
    = if blen cap keep n + 1 > cap then keep else blen cap keep n + 1 := rfl

theorem blen_le_cap (cap keep : Nat) (h : keep ≤ cap) (n : Nat) :
    blen cap keep n ≤ cap := by
  induction n with
  | zero => simp [blen_zero]
  | succ n ih =>
      rw [blen_succ]
      split <;> omega

theorem blen_le_self (cap keep : Nat) (h : keep ≤ cap) (n : Nat) :
    blen cap keep n ≤ n := by
  induction n with
  | zero => simp [blen_zero]
  | succ n ih =>
      rw [blen_succ]
      split <;> omega

theorem blen_of_le (cap keep : Nat) (n : Nat) (h : n ≤ cap) :
    blen cap keep n = n := by
  induction n with
  | zero => simp [blen_zero]
  | succ n ih =>
      rw [blen_succ, ih (by omega), if_neg (by omega)]

theorem blen_past_cap (cap keep : Nat) (_hk : keep ≤ cap) (m : Nat)
    (h : keep + m ≤ cap) : blen cap keep (cap + 1 + m) = keep + m := by
  induction m with
  | zero =>
      show blen cap keep (cap + 1) = keep + 0
      rw [blen_succ, blen_of_le cap keep cap (le_refl cap), if_pos (by omega)]
      omega
  | succ m ih =>
      have hx : cap + 1 + (m + 1) = (cap + 1 + m) + 1 := by omega
      rw [hx, blen_succ, ih (by omega), if_neg (by omega)]
      omega

theorem lastN_length (L : List JVal) (n : Nat) (h : n ≤ L.length) :
    (lastN L n).length = n := by
  simp only [lastN, List.length_drop]
  omega

theorem lastN_append (L : List JVal) (e : JVal) (n : Nat) (h : n ≤ L.length) :
    lastN L n ++ [e] = lastN (L ++ [e]) (n + 1) := by
  unfold lastN
  rw [List.length_append]
  have h1 : L.length + [e].length - (n + 1) = L.length - n := by simp
  rw [h1, List.drop_append_of_le_length (by omega)]

theorem lastN_drop_to (L : List JVal) (n keep : Nat) (h1 : keep ≤ n)
    (h2 : n ≤ L.length) :
    (lastN L n).drop (n - keep) = lastN L keep := by
  unfold lastN
  rw [List.drop_drop]
  congr 1
  omega

/-- The store's "append, truncate past `cap` to the last `keep`" step, acting
on the retained suffix, yields the retained suffix of the extended append
history. -/
theorem trunc_step (A : List JVal) (e : JVal) (cap keep : Nat) (hk : keep ≤ cap) :
    (if (lastN A (blen cap keep A.length) ++ [e]).length > cap
     then (lastN A (blen cap keep A.length) ++ [e]).drop
            ((lastN A (blen cap keep A.length) ++ [e]).length - keep)
     else lastN A (blen cap keep A.length) ++ [e])
    = lastN (A ++ [e]) (blen cap keep (A ++ [e]).length) := by
  have hble : blen cap keep A.length ≤ A.length := blen_le_self cap keep hk A.length
  have hlen1 : (lastN A (blen cap keep A.length) ++ [e]).length
      = blen cap keep A.length + 1 := by
    simp [lastN_length A _ hble]
  have happ : lastN A (blen cap keep A.length) ++ [e]
      = lastN (A ++ [e]) (blen cap keep A.length + 1) := lastN_append A e _ hble
  have hlenA : (A ++ [e]).length = A.length + 1 := by simp
  rw [hlen1, happ, hlenA, blen_succ]
  by_cases hc : blen cap keep A.length + 1 > cap
  · rw [if_pos hc, if_pos hc]
    exact lastN_drop_to (A ++ [e]) (blen cap keep A.length + 1) keep (by omega)
      (by simp; omega)
  · rw [if_neg hc, if_neg hc]

/-! ### How each logging method transforms a well-shaped document -/

theorem log_event_mutate_data (d : Doc) (E : List JVal) (etype : String) (data : JVal)
    (source ts : String) (hev : lookupKey d "events" = some (.arr E)) :
    log_event_mutate etype data source ts d
    = some (setKey d "events" (.arr
        (if (E ++ [event_record etype data source ts]).length > 1000
         then (E ++ [event_record etype data source ts]).drop
                ((E ++ [event_record etype data source ts]).length - 500)
         else E ++ [event_record etype data source ts]))) := by
  simp only [log_event_mutate]
  rw [ensureKey_lookup_of_some d "events" (.arr []) (.arr E) hev, hev]

theorem tc_log_event_data (d : Doc) (E : List JVal) (etype : String) (data : JVal)
    (source ts : String) (hev : lookupKey d "events" = some (.arr E)) :
    tc_log_event (.data d) etype data source ts
    = .data (setKey d "events" (.arr
        (if (E ++ [event_record etype data source ts]).length > 1000
         then (E ++ [event_record etype data source ts]).drop
                ((E ++ [event_record etype data source ts]).length - 500)
         else E ++ [event_record etype data source ts]))) := by
  show (match log_event_mutate etype data source ts (readData (.data d)) with
        | some d' => writeData (.data d) d'
        | none => FileState.data d) = _
  rw [show readData (.data d) = d from rfl,
      log_event_mutate_data d E etype data source ts hev]
  rfl

theorem log_comm_mutate_data (d : Doc) (C : List JVal) (fromAgent toAgent message ts : String)
    (hcm : lookupKey d "communications" = some (.arr C)) :
    log_comm_mutate fromAgent toAgent message ts d
    = some (setKey d "communications" (.arr
        (if (C ++ [comm_record fromAgent toAgent message ts]).length > 500
         then (C ++ [comm_record fromAgent toAgent message ts]).drop
                ((C ++ [comm_record fromAgent toAgent message ts]).length - 250)
         else C ++ [comm_record fromAgent toAgent message ts]))) := by
  simp only [log_comm_mutate]
  rw [ensureKey_lookup_of_some d "communications" (.arr []) (.arr C) hcm, hcm]

theorem tc_log_comm_data (d : Doc) (C : List JVal) (fromAgent toAgent message ts : String)
    (hcm : lookupKey d "communications" = some (.arr C)) :
    tc_log_communication (.data d) fromAgent toAgent message ts
    = .data (setKey d "communications" (.arr
        (if (C ++ [comm_record fromAgent toAgent message ts]).length > 500
         then (C ++ [comm_record fromAgent toAgent message ts]).drop
                ((C ++ [comm_record fromAgent toAgent message ts]).length - 250)
         else C ++ [comm_record fromAgent toAgent message ts]))) := by
  show (match log_comm_mutate fromAgent toAgent message ts (readData (.data d)) with
        | some d' => writeData (.data d) d'
        | none => FileState.data d) = _
  rw [show readData (.data d) = d from rfl,
      log_comm_mutate_data d C fromAgent toAgent message ts hcm]
  rfl

theorem update_loop_mutate_data (d : Doc) (m : List (String × JVal)) (H : List JVal)
    (i : Int) (p : String) (dat : JVal) (ts : String)
    (hil : lookupKey d "infinity_loop" = some (.obj m))
    (hh : lookupKey m "history" = some (.arr H)) :
    update_loop_mutate i p dat ts d
    = some (setKey d "infinity_loop" (.obj (setKey
        (setKey (setKey m "current_iteration" (.num i)) "phase" (.str p)) "history"
        (.arr (if (H ++ [loop_entry i p dat ts]).length > 100
               then (H ++ [loop_entry i p dat ts]).drop
                      ((H ++ [loop_entry i p dat ts]).length - 50)
               else H ++ [loop_entry i p dat ts]))))) := by
  have h2 : lookupKey
      (setKey (setKey m "current_iteration" (.num i)) "phase" (.str p)) "history"
      = some (.arr H) := by
    rw [lookupKey_setKey_ne _ _ _ _ (by decide),
        lookupKey_setKey_ne _ _ _ _ (by decide), hh]
  simp only [update_loop_mutate]
  rw [ensureKey_lookup_of_some d "infinity_loop" _ (.obj m) hil, hil]
  simp only [h2]

theorem tc_update_loop_data (d : Doc) (m : List (String × JVal)) (H : List JVal)
    (i : Int) (p : String) (dat : JVal) (ts : String)
    (hil : lookupKey d "infinity_loop" = some (.obj m))
    (hh : lookupKey m "history" = some (.arr H)) :
    tc_update_infinity_loop (.data d) i p dat ts
    = .data (setKey d "infinity_loop" (.obj (setKey
        (setKey (setKey m "current_iteration" (.num i)) "phase" (.str p)) "history"
        (.arr (if (H ++ [loop_entry i p dat ts]).length > 100
               then (H ++ [loop_entry i p dat ts]).drop
                      ((H ++ [loop_entry i p dat ts]).length - 50)
               else H ++ [loop_entry i p dat ts]))))) := by
  show (match update_loop_mutate i p dat ts (readData (.data d)) with
        | some d' => writeData (.data d) d'
        | none => FileState.data d) = _
  rw [show readData (.data d) = d from rfl,
      update_loop_mutate_data d m H i p dat ts hil hh]
  rfl

/-! ### The retention invariant (C1's heart) -/

theorem logInv_init (ts0 : String) : LogInv [] (.data (initialData ts0)) := by
  exact ⟨initialData ts0,
    [("current_iteration", .num 0), ("phase", .str "idle"), ("history", .arr [])],
    rfl, rfl, rfl, rfl, rfl⟩

theorem logInv_step (ops : List LogOp) (fs : FileState) (op : LogOp)
    (h : LogInv ops fs) : LogInv (ops ++ [op]) (applyLogOp fs op) := by
  obtain ⟨d, m, rfl, hev, hcm, hil, hh⟩ := h
  cases op with
  | ev etype data source ts =>
      have hAE : allEvents (ops ++ [.ev etype data source ts])
          = allEvents ops ++ [event_record etype data source ts] := by
        simp [allEvents, List.filterMap_append, evRecOf]
      have hAC : allComms (ops ++ [.ev etype data source ts]) = allComms ops := by
        simp [allComms, List.filterMap_append, commRecOf]
      have hAH : allHist (ops ++ [.ev etype data source ts]) = allHist ops := by
        simp [allHist, List.filterMap_append, histRecOf]
      simp only [applyLogOp]
      rw [tc_log_event_data d _ etype data source ts hev]
      refine ⟨_, m, rfl, ?_, ?_, ?_, ?_⟩
      · rw [lookupKey_setKey_self, hAE,
            trunc_step (allEvents ops) (event_record etype data source ts) 1000 500
              (by omega)]
      · rw [lookupKey_setKey_ne _ _ _ _ (by decide), hAC]
        exact hcm
      · rw [lookupKey_setKey_ne _ _ _ _ (by decide)]
        exact hil
      · rw [hAH]
        exact hh
  | comm fromAgent toAgent message ts =>
      have hAE : allEvents (ops ++ [.comm fromAgent toAgent message ts])
          = allEvents ops := by
        simp [allEvents, List.filterMap_append, evRecOf]
      have hAC : allComms (ops ++ [.comm fromAgent toAgent message ts])
          = allComms ops ++ [comm_record fromAgent toAgent message ts] := by
        simp [allComms, List.filterMap_append, commRecOf]
      have hAH : allHist (ops ++ [.comm fromAgent toAgent message ts]) = allHist ops := by
        simp [allHist, List.filterMap_append, histRecOf]
      simp only [applyLogOp]
      rw [tc_log_comm_data d _ fromAgent toAgent message ts hcm]
      refine ⟨_, m, rfl, ?_, ?_, ?_, ?_⟩
      · rw [lookupKey_setKey_ne _ _ _ _ (by decide), hAE]
        exact hev
      · rw [lookupKey_setKey_self, hAC,
            trunc_step (allComms ops) (comm_record fromAgent toAgent message ts) 500 250
              (by omega)]
      · rw [lookupKey_setKey_ne _ _ _ _ (by decide)]
        exact hil
      · rw [hAH]
        exact hh
  | loop i p dat ts =>
      have hAE : allEvents (ops ++ [.loop i p dat ts]) = allEvents ops := by
        simp [allEvents, List.filterMap_append, evRecOf]
      have hAC : allComms (ops ++ [.loop i p dat ts]) = allComms ops := by
        simp [allComms, List.filterMap_append, commRecOf]
      have hAH : allHist (ops ++ [.loop i p dat ts])
          = allHist ops ++ [loop_entry i p dat ts] := by
        simp [allHist, List.filterMap_append, histRecOf]
      simp only [applyLogOp]
      rw [tc_update_loop_data d m _ i p dat ts hil hh]
      refine ⟨_, _, rfl, ?_, ?_, lookupKey_setKey_self _ _ _, ?_⟩
      · rw [lookupKey_setKey_ne _ _ _ _ (by decide), hAE]
        exact hev
      · rw [lookupKey_setKey_ne _ _ _ _ (by decide), hAC]
        exact hcm
      · rw [lookupKey_setKey_self, hAH,
            trunc_step (allHist ops) (loop_entry i p dat ts) 100 50 (by omega)]

theorem logInv_holds (ts0 : String) (ops : List LogOp) :
    LogInv ops (runLogOps (.data (initialData ts0)) ops) := by
  induction ops using List.reverseRecOn with
  | nil => exact logInv_init ts0
  | append_singleton l a ih =>
      simp only [runLogOps, List.foldl_append, List.foldl_cons, List.foldl_nil]
      exact logInv_step l _ a ih

/-- **C1**: after any sequence of `log_event`/`log_communication`/
`update_infinity_loop` calls on a fresh store, the persisted `events`,
`communications` and `infinity_loop.history` sections hold exactly the most
recent appended records as a contiguous suffix (`List.drop` of the full append
history — most recent entries, original relative order, never a prefix), their
counts follow the append/truncate recurrence `blen` (which truncates to
exactly the most recent 500/250/50 whenever a cap is exceeded), and those
counts never exceed 1000/500/100. -/
theorem c1_bounded_retention (ts0 : String) (ops : List LogOp) :
    evOf (runLogOps (ensure_file_exists .missing ts0) ops)
      = some ((allEvents ops).drop
          ((allEvents ops).length - blen 1000 500 (allEvents ops).length)) ∧
    commsOf (runLogOps (ensure_file_exists .missing ts0) ops)
      = some ((allComms ops).drop
          ((allComms ops).length - blen 500 250 (allComms ops).length)) ∧
    histOf (runLogOps (ensure_file_exists .missing ts0) ops)
      = some ((allHist ops).drop
          ((allHist ops).length - blen 100 50 (allHist ops).length)) ∧
    ((allEvents ops).drop
        ((allEvents ops).length - blen 1000 500 (allEvents ops).length)).length
      = blen 1000 500 (allEvents ops).length ∧
    ((allComms ops).drop
        ((allComms ops).length - blen 500 250 (allComms ops).length)).length
      = blen 500 250 (allComms ops).length ∧
    ((allHist ops).drop
        ((allHist ops).length - blen 100 50 (allHist ops).length)).length
      = blen 100 50 (allHist ops).length ∧
    blen 1000 500 (allEvents ops).length ≤ 1000 ∧
    blen 500 250 (allComms ops).length ≤ 500 ∧
    blen 100 50 (allHist ops).length ≤ 100 := by
  obtain ⟨d, m, hfs, hev, hcm, hil, hh⟩ := logInv_holds ts0 ops
  have hfs' : runLogOps (ensure_file_exists .missing ts0) ops = .data d := hfs
  refine ⟨?_, ?_, ?_, ?_, ?_, ?_, ?_, ?_, ?_⟩
  · rw [hfs']
    simp only [evOf, readData, hev]
    rfl
  · rw [hfs']
    simp only [commsOf, readData, hcm]
    rfl
  · rw [hfs']
    simp only [histOf, loopFieldOf, infLoopOf, readData, hil, hh]
    rfl
  · exact lastN_length _ _ (blen_le_self 1000 500 (by omega) _)
  · exact lastN_length _ _ (blen_le_self 500 250 (by omega) _)
  · exact lastN_length _ _ (blen_le_self 100 50 (by omega) _)
  · exact blen_le_cap 1000 500 (by omega) _
  · exact blen_le_cap 500 250 (by omega) _
  · exact blen_le_cap 100 50 (by omega) _

/-! ### C8: 1200 events pushed, what `get_recent_events(2000)` returns -/

theorem filterMap_all_some {α β : Type} (f : α → β) (l : List α) :
    l.filterMap (fun x => some (f x)) = l.map f := by
  induction l with
  | nil => rfl
  | cons a t ih => simp [List.filterMap_cons, ih]

theorem allEvents_ops1200 : allEvents ops1200 = pushed1200 := by
  simp only [allEvents, ops1200, pushed1200, List.filterMap_map]
  exact filterMap_all_some _ _

theorem pushed1200_length : pushed1200.length = 1200 := by
  show ((List.range 1200).map
    (fun i : Nat => event_record "test_event" (.num (i : Int)) "system" "t")).length
    = 1200
  rw [List.length_map, List.length_range]

theorem blen_1200 : blen 1000 500 1200 = 699 := by
  have h := blen_past_cap 1000 500 (by omega) 199 (by omega)
  norm_num at h
  exact h

/-- Shared evaluation of the C8 scenario: the persisted `events` section after
the 1200 pushes. -/
theorem c8_events_shape :
    ∃ d, runLogOps (ensure_file_exists .missing "t0") ops1200 = .data d ∧
      lookupKey d "events" = some (.arr (pushed1200.drop 501)) ∧
      (pushed1200.drop 501).length = 699 := by
  obtain ⟨d, m, hfs, hev, _, _, _⟩ := logInv_holds "t0" ops1200
  refine ⟨d, hfs, ?_, ?_⟩
  · rw [hev]
    have : lastN (allEvents ops1200) (blen 1000 500 (allEvents ops1200).length)
        = pushed1200.drop 501 := by
      rw [allEvents_ops1200]
      unfold lastN
      rw [pushed1200_length, blen_1200]
    rw [this]
  · rw [List.length_drop, pushed1200_length]

/-- **C8 (corrected)**: starting from an empty store, after 1200 consecutive
`log_event` calls, `get_recent_events(2000)` returns exactly **699** events —
the last 699 pushed (`pushed1200.drop 501`), in push order.  (Truncation to
500 fires once, at the 1001st append; the remaining 199 appends then grow the
log to 699.) -/
theorem c8_recent_events_699 :
    get_recent_events (runLogOps (ensure_file_exists .missing "t0") ops1200) 2000
      = pushed1200.drop 501 ∧
    (pushed1200.drop 501).length = 699 := by
  obtain ⟨d, hfs, hev, hlen⟩ := c8_events_shape
  refine ⟨?_, hlen⟩
  rw [hfs]
  simp only [get_recent_events, readData, hev]
  have hne : (pushed1200.drop 501).isEmpty = false := by
    rw [Bool.eq_false_iff]
    intro hE
    rw [List.isEmpty_iff_length_eq_zero] at hE
    omega
  rw [hne, hlen]
  norm_num

/-- **C8, counterexample to the claim as stated**: the scenario returns 699
events, not 500. -/
theorem c8_claim_false :
    (get_recent_events (runLogOps (ensure_file_exists .missing "t0") ops1200)
        2000).length = 699 ∧ (699 : Nat) ≠ 500 := by
  obtain ⟨d, hfs, hev, hlen⟩ := c8_events_shape
  constructor
  · rw [hfs]
    simp only [get_recent_events, readData, hev]
    have hne : (pushed1200.drop 501).isEmpty = false := by
      rw [Bool.eq_false_iff]
      intro hE
      rw [List.isEmpty_iff_length_eq_zero] at hE
      omega
    rw [hne, hlen]
    norm_num [hlen]
  · omega

/-! ### C6/C7: store and retrieve -/

/-- What `store` leaves at an absent category: it is created key-indexed and
holds exactly the one entry. -/
theorem store_on_none (fs : FileState) (k : String) (v : JVal) (c ts : String)
    (hx : lookupKey (readData fs) c = none) :
    lookupKey (readData (tc_store fs k v c ts)) c
      = some (.obj [(k, .obj [("data", v), ("timestamp", .str ts)])]) := by
  show lookupKey (store_mutate k v c ts (readData fs)) c = _
  simp only [store_mutate]
  rw [ensureKey_lookup_of_none _ _ _ hx, lookupKey_setKey_self]
  rw [lookupKey_setKey_self]
  rfl

/-- What `store` leaves at a dict category: the entry for `k` is overwritten
(Python dict assignment), everything else kept. -/
theorem store_on_obj (fs : FileState) (k : String) (v : JVal) (c ts : String)
    (m : List (String × JVal)) (hx : lookupKey (readData fs) c = some (.obj m)) :
    lookupKey (readData (tc_store fs k v c ts)) c
      = some (.obj (setKey m k (.obj [("data", v), ("timestamp", .str ts)]))) := by
  show lookupKey (store_mutate k v c ts (readData fs)) c = _
  simp only [store_mutate]
  rw [ensureKey_lookup_of_some _ _ _ _ hx, hx]
  rw [lookupKey_setKey_self]

/-- What `store` leaves at a list category: one appended entry and **no
truncation whatsoever** — the length always grows by one. -/
theorem store_on_arr (fs : FileState) (k : String) (v : JVal) (c ts : String)
    (l : List JVal) (hx : lookupKey (readData fs) c = some (.arr l)) :
    lookupKey (readData (tc_store fs k v c ts)) c
      = some (.arr (l ++ [.obj [("key", .str k), ("data", v), ("timestamp", .str ts)]])) := by
  show lookupKey (store_mutate k v c ts (readData fs)) c = _
  simp only [store_mutate]
  rw [ensureKey_lookup_of_some _ _ _ _ hx, hx]
  rw [lookupKey_setKey_self]

/-- The round trip at the heart of C6. -/
theorem store_retrieve_core (fs : FileState) (k : String) (v : JVal) (c ts : String)
    (h : keyedOrAbsent fs c = true) :
    tc_retrieve (tc_store fs k v c ts) k c = some v := by
  cases hx : lookupKey (readData fs) c with
  | none =>
      simp only [tc_retrieve, store_on_none fs k v c ts hx]
      simp [lookupKey, pyTruthy]
  | some w =>
      cases w with
      | obj m =>
          simp only [tc_retrieve, store_on_obj fs k v c ts m hx]
          rw [lookupKey_setKey_self]
          simp [pyTruthy, lookupKey]
      | null => simp [keyedOrAbsent, hx] at h
      | bool b => simp [keyedOrAbsent, hx] at h
      | num n => simp [keyedOrAbsent, hx] at h
      | fnum q => simp [keyedOrAbsent, hx] at h
      | str s => simp [keyedOrAbsent, hx] at h
      | arr l => simp [keyedOrAbsent, hx] at h

/-- `store` keeps (indeed establishes) the dict shape of such a category. -/
theorem store_keyed (fs : FileState) (k : String) (v : JVal) (c ts : String)
    (h : keyedOrAbsent fs c = true) :
    keyedOrAbsent (tc_store fs k v c ts) c = true := by
  cases hx : lookupKey (readData fs) c with
  | none => simp [keyedOrAbsent, store_on_none fs k v c ts hx]
  | some w =>
      cases w with
      | obj m => simp [keyedOrAbsent, store_on_obj fs k v c ts m hx]
      | null => simp [keyedOrAbsent, hx] at h
      | bool b => simp [keyedOrAbsent, hx] at h
      | num n => simp [keyedOrAbsent, hx] at h
      | fnum q => simp [keyedOrAbsent, hx] at h
      | str s => simp [keyedOrAbsent, hx] at h
      | arr l => simp [keyedOrAbsent, hx] at h

theorem keyed_applyStores (k c : String) (writes : List (JVal × String)) :
    ∀ fs, keyedOrAbsent fs c = true →
      keyedOrAbsent (applyStores fs k c writes) c = true := by
  induction writes with
  | nil => intro fs h; exact h
  | cons p rest ih =>
      intro fs h
      simp only [applyStores, List.foldl_cons]
      exact ih _ (store_keyed fs k p.1 c p.2 h)

/-- **C6 (corrected)**: for every key `k`, payload `v` and category `c` whose
current shape is key-indexed or absent (`store` creates absent categories
key-indexed), `store(k, v, c)` immediately followed by `retrieve(k, c)`
returns `v`; and for every non-empty sequence of `store` calls to the same
key and such a category, `retrieve` returns the payload of the most recent
call — last-write-wins, never a merge.  (For a log-shaped category such as
`events`, `retrieve` returns absent instead; see the counterexample.) -/
theorem c6_round_trip_last_write_wins :
    (∀ (fs : FileState) (k : String) (v : JVal) (c ts : String),
        keyedOrAbsent fs c = true →
        tc_retrieve (tc_store fs k v c ts) k c = some v) ∧
    (∀ (fs : FileState) (k c : String) (writes : List (JVal × String))
        (v : JVal) (ts : String),
        keyedOrAbsent fs c = true → writes.getLast? = some (v, ts) →
        tc_retrieve (applyStores fs k c writes) k c = some v) := by
  constructor
  · exact store_retrieve_core
  · intro fs k c writes v ts hk hl
    rcases List.eq_nil_or_concat writes with rfl | ⟨l, x, rfl⟩
    · simp at hl
    · rw [List.concat_eq_append, List.getLast?_concat] at hl
      obtain rfl := Option.some.inj hl
      rw [List.concat_eq_append]
      have : applyStores fs k c (l ++ [(v, ts)])
          = tc_store (applyStores fs k c l) k v c ts := by
        simp [applyStores, List.foldl_append]
      rw [this]
      exact store_retrieve_core _ _ _ _ _ (keyed_applyStores k c l fs hk)

/-- **C6, witness**: the round trip and last-write-wins at concrete inputs
(fresh store, `agents` category). -/
theorem c6_witness :
    keyedOrAbsent (ensure_file_exists .missing "t0") "agents" = true ∧
    tc_retrieve (tc_store (ensure_file_exists .missing "t0") "k" (.str "x")
        "agents" "t1") "k" "agents" = some (.str "x") ∧
    tc_retrieve (applyStores (ensure_file_exists .missing "t0") "k" "agents"
        [(.str "one", "t1"), (.str "two", "t2")]) "k" "agents"
      = some (.str "two") :=
  ⟨rfl, c6_round_trip_last_write_wins.1 _ "k" (.str "x") "agents" "t1" rfl,
   c6_round_trip_last_write_wins.2 _ "k" "agents"
     [(.str "one", "t1"), (.str "two", "t2")] (.str "two") "t2" rfl rfl⟩

/-- **C6, counterexample to the claim as stated**: on the log-shaped category
`events`, `store` then `retrieve` returns absent, not the stored payload. -/
theorem c6_claim_false :
    tc_retrieve (tc_store (ensure_file_exists .missing "t0") "k" (.str "x")
        "events" "t1") "k" "events" = none ∧
    (none : Option JVal) ≠ some (.str "x") :=
  ⟨rfl, fun h => Option.noConfusion h⟩

/-- **C7 (corrected)**: `store(key, data, category)` never fails on an unknown
category — it creates it key-indexed with the single entry; on a key-indexed
category it overwrites the entry for `key`; but on a log-shaped category it
**appends without applying any bound/truncation rule**, so repeated `store`
calls into a log-shaped category such as `events` can grow it beyond its cap. -/
theorem c7_store_shapes :
    (∀ (fs : FileState) (k : String) (v : JVal) (c ts : String),
        lookupKey (readData fs) c = none →
        lookupKey (readData (tc_store fs k v c ts)) c
          = some (.obj [(k, .obj [("data", v), ("timestamp", .str ts)])])) ∧
    (∀ (fs : FileState) (k : String) (v : JVal) (c ts : String)
        (m : List (String × JVal)),
        lookupKey (readData fs) c = some (.obj m) →
        lookupKey (readData (tc_store fs k v c ts)) c
          = some (.obj (setKey m k (.obj [("data", v), ("timestamp", .str ts)])))) ∧
    (∀ (fs : FileState) (k : String) (v : JVal) (c ts : String) (l : List JVal),
        lookupKey (readData fs) c = some (.arr l) →
        lookupKey (readData (tc_store fs k v c ts)) c
          = some (.arr (l ++ [.obj [("key", .str k), ("data", v),
                                    ("timestamp", .str ts)]]))) :=
  ⟨store_on_none, fun fs k v c ts m h => store_on_obj fs k v c ts m h,
   fun fs k v c ts l h => store_on_arr fs k v c ts l h⟩

/-- **C7, witness**: the three shapes at concrete inputs on a fresh store
(`widgets` unknown, `agents` key-indexed, `events` log-shaped). -/
theorem c7_witness :
    lookupKey (readData (ensure_file_exists .missing "t0")) "widgets" = none ∧
    lookupKey (readData (tc_store (ensure_file_exists .missing "t0") "k"
        (.str "x") "widgets" "t1")) "widgets"
      = some (.obj [("k", .obj [("data", .str "x"), ("timestamp", .str "t1")])]) ∧
    lookupKey (readData (tc_store (ensure_file_exists .missing "t0") "k"
        (.str "x") "agents" "t1")) "agents"
      = some (.obj [("k", .obj [("data", .str "x"), ("timestamp", .str "t1")])]) ∧
    lookupKey (readData (tc_store (ensure_file_exists .missing "t0") "k"
        (.str "x") "events" "t1")) "events"
      = some (.arr [.obj [("key", .str "k"), ("data", .str "x"),
                          ("timestamp", .str "t1")]]) :=
  ⟨rfl,
   c7_store_shapes.1 _ "k" (.str "x") "widgets" "t1" rfl,
   c7_store_shapes.2.1 _ "k" (.str "x") "agents" "t1" [] rfl,
   c7_store_shapes.2.2 _ "k" (.str "x") "events" "t1" [] rfl⟩

/-- **C7, counterexample to the claim as stated**: a `store` into an `events`
log already at its 1000-entry cap leaves 1001 persisted entries — `store`
applies no truncation, so the cap is exceeded. -/
theorem c7_claim_false :
    (evOf (tc_store c7_full_store "k" .null "events" "t")).map List.length
      = some 1001 ∧ ¬ (1001 ≤ 1000) := by
  constructor
  · have h := store_on_arr c7_full_store "k" .null "events" "t"
      (List.replicate 1000 .null) rfl
    simp only [evOf, h]
    simp
  · omega

/-! ### C2: the lock is per file access, not per method -/

/-- **C2 (corrected)**: `_read_data` and `_write_data` each hold the one lock
individually, but the mutating methods release it between their read and
their write.  Under the interleaving read₁-read₂-write₁-write₂ the final
file is `m2 d` alone — call 1's update is lost — whereas the two serialized
schedules compose both mutations. -/
theorem c2_lock_per_access :
    (∀ (d : Doc) (m1 m2 : Doc → Doc),
        interleave2 m1 m2 [true, false, true, false] (.data d) = .data (m2 d)) ∧
    (∀ (d : Doc) (m1 m2 : Doc → Doc),
        interleave2 m1 m2 [true, true, false, false] (.data d)
          = .data (m2 (m1 d))) ∧
    (∀ (d : Doc) (m1 m2 : Doc → Doc),
        interleave2 m1 m2 [false, false, true, true] (.data d)
          = .data (m1 (m2 d))) :=
  ⟨fun _ _ _ => rfl, fun _ _ _ => rfl, fun _ _ _ => rfl⟩

/-- **C2, counterexample to the claim as stated**: for the concurrent pair
`store("k1", "v1", "agents")` and `store("k2", "v2", "agents")` on a fresh
store, an interleaving permitted by the per-access lock yields a state in
which `k1` was never written (`retrieve` returns absent), while **both**
serial orders leave `k1` retrievable — the outcome matches no serial
execution, a lost update. -/
theorem c2_claim_false :
    tc_retrieve lostUpdateRun "k1" "agents" = none ∧
    tc_retrieve lostUpdateRun "k2" "agents" = some (.str "v2") ∧
    tc_retrieve (tc_store (tc_store (ensure_file_exists .missing "t0") "k1"
        (.str "v1") "agents" "t1") "k2" (.str "v2") "agents" "t2") "k1" "agents"
      = some (.str "v1") ∧
    tc_retrieve (tc_store (tc_store (ensure_file_exists .missing "t0") "k2"
        (.str "v2") "agents" "t2") "k1" (.str "v1") "agents" "t1") "k1" "agents"
      = some (.str "v1") ∧
    (none : Option JVal) ≠ some (.str "v1") :=
  ⟨rfl, rfl, rfl, rfl, fun h => Option.noConfusion h⟩

/-! ### C4: `clear` does not clear -/

/-- **C4 (code bug)**: `clear()` is `_ensure_file_exists()`, which does
nothing when the backing file exists.  On a non-empty store it is a no-op:
the logged event survives, contradicting the claim (and the method's own
docstring, "Clear all Time Crystal data") that the store is reset to its
empty initial shape. -/
theorem c4_clear_is_noop :
    tc_clear c4_state "t2" = c4_state ∧
    evOf (tc_clear c4_state "t2")
      = some [event_record "boot" .null "system" "t1"] ∧
    some [event_record "boot" .null "system" "t1"] ≠ some ([] : List JVal) := by
  refine ⟨rfl, rfl, ?_⟩
  intro h
  simp at h

/-! ### C3: which document keys each store method can touch -/

theorem store_mutate_lookup_ne (k : String) (v : JVal) (c ts : String) (cur : Doc)
    (k' : String) (h : k' ≠ c) :
    lookupKey (store_mutate k v c ts cur) k' = lookupKey cur k' := by
  simp only [store_mutate]
  cases hx : lookupKey cur c with
  | none =>
      rw [ensureKey_lookup_of_none _ _ _ hx]
      simp only [lookupKey_setKey_self]
      rw [lookupKey_setKey_ne _ _ _ _ h, lookupKey_setKey_ne _ _ _ _ h]
  | some w =>
      rw [ensureKey_lookup_of_some _ _ _ _ hx]
      simp only [hx]
      cases w with
      | obj m => rw [lookupKey_setKey_ne _ _ _ _ h]
      | arr l => rw [lookupKey_setKey_ne _ _ _ _ h]
      | null => rfl
      | bool b => rfl
      | num n => rfl
      | fnum q => rfl
      | str s => rfl

theorem infLoopOf_tc_store (fs : FileState) (k : String) (v : JVal) (ts : String) :
    infLoopOf (tc_store fs k v "agents" ts) = infLoopOf fs :=
  store_mutate_lookup_ne k v "agents" ts (readData fs) "infinity_loop" (by decide)

theorem log_event_mutate_lookup_ne (etype : String) (data : JVal) (source ts : String)
    (cur d' : Doc) (hm : log_event_mutate etype data source ts cur = some d')
    (k' : String) (h : k' ≠ "events") :
    lookupKey d' k' = lookupKey cur k' := by
  simp only [log_event_mutate] at hm
  cases hx : lookupKey (ensureKey cur "events" (.arr [])) "events" with
  | none =>
      simp only [hx] at hm
      exact absurd hm (by simp)
  | some w =>
      simp only [hx] at hm
      cases w with
      | arr l =>
          obtain rfl := Option.some.inj hm
          rw [lookupKey_setKey_ne _ _ _ _ h, ensureKey_lookup_ne _ _ _ _ h]
      | null => exact absurd hm (by simp)
      | bool b => exact absurd hm (by simp)
      | num n => exact absurd hm (by simp)
      | fnum q => exact absurd hm (by simp)
      | str s => exact absurd hm (by simp)
      | obj m => exact absurd hm (by simp)

theorem infLoopOf_tc_log_event (fs : FileState) (etype : String) (data : JVal)
    (source ts : String) :
    infLoopOf (tc_log_event fs etype data source ts) = infLoopOf fs := by
  unfold tc_log_event
  cases hm : log_event_mutate etype data source ts (readData fs) with
  | none => rfl
  | some d' =>
      exact log_event_mutate_lookup_ne etype data source ts (readData fs) d' hm
        "infinity_loop" (by decide)

theorem log_comm_mutate_lookup_ne (fromAgent toAgent message ts : String)
    (cur d' : Doc) (hm : log_comm_mutate fromAgent toAgent message ts cur = some d')
    (k' : String) (h : k' ≠ "communications") :
    lookupKey d' k' = lookupKey cur k' := by
  simp only [log_comm_mutate] at hm
  cases hx : lookupKey (ensureKey cur "communications" (.arr [])) "communications" with
  | none =>
      simp only [hx] at hm
      exact absurd hm (by simp)
  | some w =>
      simp only [hx] at hm
      cases w with
      | arr l =>
          obtain rfl := Option.some.inj hm
          rw [lookupKey_setKey_ne _ _ _ _ h, ensureKey_lookup_ne _ _ _ _ h]
      | null => exact absurd hm (by simp)
      | bool b => exact absurd hm (by simp)
      | num n => exact absurd hm (by simp)
      | fnum q => exact absurd hm (by simp)
      | str s => exact absurd hm (by simp)
      | obj m => exact absurd hm (by simp)

theorem infLoopOf_tc_log_comm (fs : FileState) (fromAgent toAgent message ts : String) :
    infLoopOf (tc_log_communication fs fromAgent toAgent message ts) = infLoopOf fs := by
  unfold tc_log_communication
  cases hm : log_comm_mutate fromAgent toAgent message ts (readData fs) with
  | none => rfl
  | some d' =>
      exact log_comm_mutate_lookup_ne fromAgent toAgent message ts (readData fs) d' hm
        "infinity_loop" (by decide)

/-! ### C3: what `update_infinity_loop` establishes -/

theorem update_loop_mutate_fields (i : Int) (p : String) (dat : JVal) (ts : String)
    (cur d' : Doc) (hm : update_loop_mutate i p dat ts cur = some d') :
    ∃ m, lookupKey d' "infinity_loop" = some (.obj m) ∧
      lookupKey m "current_iteration" = some (.num i) ∧
      lookupKey m "phase" = some (.str p) := by
  simp only [update_loop_mutate] at hm
  cases hx : lookupKey (ensureKey cur "infinity_loop"
      (.obj [("current_iteration", .num 0), ("phase", .str "idle"),
             ("history", .arr [])])) "infinity_loop" with
  | none =>
      simp only [hx] at hm
      exact absurd hm (by simp)
  | some w =>
      simp only [hx] at hm
      cases w with
      | obj m =>
          cases hy : lookupKey
              (setKey (setKey m "current_iteration" (.num i)) "phase" (.str p))
              "history" with
          | none =>
              simp only [hy] at hm
              exact absurd hm (by simp)
          | some hv =>
              simp only [hy] at hm
              cases hv with
              | arr hl =>
                  obtain rfl := Option.some.inj hm
                  refine ⟨_, lookupKey_setKey_self _ _ _, ?_, ?_⟩
                  · rw [lookupKey_setKey_ne _ "history" "current_iteration" _ (by decide),
                        lookupKey_setKey_ne _ "phase" "current_iteration" _ (by decide),
                        lookupKey_setKey_self]
                  · rw [lookupKey_setKey_ne _ "history" "phase" _ (by decide),
                        lookupKey_setKey_self]
              | null => exact absurd hm (by simp)
              | bool b => exact absurd hm (by simp)
              | num n => exact absurd hm (by simp)
              | fnum q => exact absurd hm (by simp)
              | str s => exact absurd hm (by simp)
              | obj mm => exact absurd hm (by simp)
      | null => exact absurd hm (by simp)
      | bool b => exact absurd hm (by simp)
      | num n => exact absurd hm (by simp)
      | fnum q => exact absurd hm (by simp)
      | str s => exact absurd hm (by simp)
      | arr l => exact absurd hm (by simp)

/-- `update_infinity_loop` on a document with no `infinity_loop` section:
the default record is created, then mutated in place. -/
theorem update_loop_mutate_none (i : Int) (p : String) (dat : JVal) (ts : String)
    (cur : Doc) (hx : lookupKey cur "infinity_loop" = none) :
    update_loop_mutate i p dat ts cur
    = some (setKey (setKey cur "infinity_loop"
        (.obj [("current_iteration", .num 0), ("phase", .str "idle"),
               ("history", .arr [])]))
        "infinity_loop" (.obj (setKey (setKey (setKey
            [("current_iteration", .num 0), ("phase", .str "idle"),
             ("history", .arr [])]
            "current_iteration" (.num i)) "phase" (.str p)) "history"
            (.arr [loop_entry i p dat ts])))) := by
  simp only [update_loop_mutate, ensureKey_lookup_of_none _ _ _ hx,
             lookupKey_setKey_self]
  rfl

/-- On a well-shaped document `update_infinity_loop` takes its main path (the
Python call would not raise) and the persisted `infinity_loop` record carries
the requested iteration and phase. -/
theorem tc_update_loop_fields (fs : FileState) (i : Int) (p : String) (dat : JVal)
    (ts : String) (hwf : loopWF (readData fs) = true) :
    ∃ m, infLoopOf (tc_update_infinity_loop fs i p dat ts) = some (.obj m) ∧
      lookupKey m "current_iteration" = some (.num i) ∧
      lookupKey m "phase" = some (.str p) := by
  have hsucc : ∃ d', update_loop_mutate i p dat ts (readData fs) = some d' := by
    cases hx : lookupKey (readData fs) "infinity_loop" with
    | none => exact ⟨_, update_loop_mutate_none i p dat ts _ hx⟩
    | some w =>
        cases w with
        | obj m =>
            cases hy : lookupKey m "history" with
            | none => simp [loopWF, hx, hy] at hwf
            | some hv =>
                cases hv with
                | arr H =>
                    exact ⟨_, update_loop_mutate_data (readData fs) m H i p dat ts hx hy⟩
                | null => simp [loopWF, hx, hy] at hwf
                | bool b => simp [loopWF, hx, hy] at hwf
                | num n => simp [loopWF, hx, hy] at hwf
                | fnum q => simp [loopWF, hx, hy] at hwf
                | str s => simp [loopWF, hx, hy] at hwf
                | obj mm => simp [loopWF, hx, hy] at hwf
        | null => simp [loopWF, hx] at hwf
        | bool b => simp [loopWF, hx] at hwf
        | num n => simp [loopWF, hx] at hwf
        | fnum q => simp [loopWF, hx] at hwf
        | str s => simp [loopWF, hx] at hwf
        | arr l => simp [loopWF, hx] at hwf
  obtain ⟨d', hm⟩ := hsucc
  obtain ⟨m, h1, h2, h3⟩ := update_loop_mutate_fields i p dat ts (readData fs) d' hm
  refine ⟨m, ?_, h2, h3⟩
  unfold tc_update_infinity_loop
  rw [hm]
  exact h1

/-! ### C3: no later step of an iteration touches the `infinity_loop` entry -/

theorem foldl_preserves {α β γ : Type} (f : β → α → β) (P : β → γ)
    (h : ∀ b a, P (f b a) = P b) : ∀ (l : List α) (b : β), P (l.foldl f b) = P b := by
  intro l
  induction l with
  | nil => intro b; rfl
  | cons a t ih => intro b; rw [List.foldl_cons, ih, h]

theorem winf_save_state (w : World) (i : Nat) (ts : String) :
    infLoopOf (save_state w i ts).tc = infLoopOf w.tc := by
  unfold save_state
  cases hx : w.heap.get? i with
  | some a => exact infLoopOf_tc_store w.tc _ _ ts
  | none => rfl

theorem winf_setAgent (w : World) (i : Nat) (a : AgentObj) :
    infLoopOf (setAgent w i a).tc = infLoopOf w.tc := rfl

theorem winf_receive (w : World) (j : Nat) (message senderName ts : String) :
    infLoopOf (agent_receive w j message senderName ts).tc = infLoopOf w.tc := by
  unfold agent_receive
  cases hx : w.heap.get? j with
  | none => rfl
  | some t =>
      rw [infLoopOf_tc_log_event, winf_save_state, winf_setAgent]

theorem winf_communicate (w : World) (i j : Nat) (message ts : String) :
    infLoopOf (communicate w i j message ts).tc = infLoopOf w.tc := by
  unfold communicate
  cases hx : w.heap.get? i with
  | none => rfl
  | some s =>
      cases hy : w.heap.get? j with
      | none => rfl
      | some t =>
          cases hz : (agent_receive
              { w with tc := tc_log_communication w.tc s.name t.name message ts }
              j message s.name ts).heap.get? i with
          | none =>
              simp only [hz]
              rw [winf_receive]
              exact infLoopOf_tc_log_comm w.tc _ _ message ts
          | some s2 =>
              simp only [hz]
              rw [winf_save_state, winf_setAgent, winf_receive]
              exact infLoopOf_tc_log_comm w.tc _ _ message ts

theorem winf_drain (w : World) (i : Nat) :
    infLoopOf (process_pending_messages w i).1.tc = infLoopOf w.tc := by
  unfold process_pending_messages
  cases hx : w.heap.get? i with
  | none => rfl
  | some a => rfl

theorem winf_update_resonance (w : World) (i : Nat) (level : Rat) (ts : String) :
    infLoopOf (update_resonance w i level ts).tc = infLoopOf w.tc := by
  unfold update_resonance
  cases hx : w.heap.get? i with
  | none => rfl
  | some a => rw [winf_save_state, winf_setAgent]

theorem winf_broadcast (w : World) (i : Nat) (message : String) (targets : List Nat)
    (ts : String) :
    infLoopOf (broadcast w i message targets ts).tc = infLoopOf w.tc := by
  unfold broadcast
  have hfold : infLoopOf
      ((targets.foldl (fun w j => communicate w i j message ts) w)).tc
      = infLoopOf w.tc :=
    foldl_preserves _ (fun w => infLoopOf w.tc)
      (fun b a => winf_communicate b i a message ts) targets w
  cases hx : (targets.foldl (fun w j => communicate w i j message ts) w).heap.get? i with
  | none =>
      simp only [hx]
      exact hfold
  | some a =>
      simp only [hx]
      rw [infLoopOf_tc_log_event]
      exact hfold

theorem winf_register_module (w : World) (i : Nat) (moduleName ts : String) :
    infLoopOf (register_module w i moduleName ts).tc = infLoopOf w.tc := by
  unfold register_module
  cases hx : w.heap.get? i with
  | none => rfl
  | some a =>
      cases hy : (save_state (setAgent w i
          { a with
            connected_modules :=
              (if moduleName ∈ a.connected_modules then a.connected_modules
               else a.connected_modules ++ [moduleName]),
            state := setKey a.state "connected_modules"
              (.arr ((if moduleName ∈ a.connected_modules then a.connected_modules
                      else a.connected_modules ++ [moduleName]).map JVal.str)) })
          i ts).heap.get? i with
      | none =>
          simp only [hy]
          rw [winf_save_state, winf_setAgent]
      | some a2 =>
          simp only [hy]
          rw [infLoopOf_tc_log_event, winf_save_state, winf_setAgent]

theorem winf_orch_log (o : Orch) (w : World) (message ts : String) :
    infLoopOf (orch_log o w message ts).tc = infLoopOf w.tc :=
  infLoopOf_tc_log_event w.tc _ _ _ ts

theorem winf_tune_step (ts : String) (b : World) (p : String × Nat) :
    infLoopOf (tune_step ts b p).tc = infLoopOf b.tc := by
  unfold tune_step
  cases hx : b.heap.get? p.2 with
  | none => rfl
  | some a =>
      simp only [hx]
      by_cases hr : a.has_update_resonance
      · rw [if_pos hr, winf_update_resonance]
      · rw [if_neg hr]

theorem winf_tune_fold (ts : String) (reg : List (String × Nat)) (b : World) :
    infLoopOf (reg.foldl (tune_step ts) b).tc = infLoopOf b.tc :=
  foldl_preserves (tune_step ts) (fun w => infLoopOf w.tc)
    (fun b a => winf_tune_step ts b a) reg b

theorem winf_drain_step (b : World × List JVal) (p : String × Nat) :
    infLoopOf (drain_step b p).1.tc = infLoopOf b.1.tc := by
  unfold drain_step
  exact winf_drain b.1 p.2

theorem winf_drain_fold (reg : List (String × Nat)) (b : World × List JVal) :
    infLoopOf (reg.foldl drain_step b).1.tc = infLoopOf b.1.tc :=
  foldl_preserves drain_step (fun p => infLoopOf p.1.tc)
    (fun b a => winf_drain_step b a) reg b

theorem winf_stab_step (ts : String) (b : World) (p : String × Nat) :
    infLoopOf (stab_step ts b p).tc = infLoopOf b.tc := by
  unfold stab_step
  cases hx : b.heap.get? p.2 with
  | none => rfl
  | some a =>
      simp only [hx]
      rw [winf_save_state, winf_setAgent]

theorem winf_stab_fold (ts : String) (reg : List (String × Nat)) (b : World) :
    infLoopOf (reg.foldl (stab_step ts) b).tc = infLoopOf b.tc :=
  foldl_preserves (stab_step ts) (fun w => infLoopOf w.tc)
    (fun b a => winf_stab_step ts b a) reg b

/-! ### C3: each phase persists its iteration number and phase name -/

theorem phase3_loopFields (o : Orch) (w : World) (ts : String)
    (hwf : loopWF (readData w.tc) = true) :
    loopFieldOf (phase_resonance_analysis o w ts).2.1.tc "current_iteration"
      = some (.num 3) ∧
    loopFieldOf (phase_resonance_analysis o w ts).2.1.tc "phase"
      = some (.str "resonance_analysis") := by
  obtain ⟨m, h1, h2, h3⟩ :=
    tc_update_loop_fields w.tc 3 "resonance_analysis" .null ts hwf
  have hfin : infLoopOf (phase_resonance_analysis o w ts).2.1.tc = some (.obj m) := by
    show infLoopOf (orch_log _ (orch_log _
        { w with tc := tc_update_infinity_loop w.tc 3 "resonance_analysis" .null ts }
        _ _) _ _).tc = _
    rw [winf_orch_log, winf_orch_log]
    exact h1
  constructor
  · simp only [loopFieldOf, hfin]
    exact h2
  · simp only [loopFieldOf, hfin]
    exact h3

theorem phase5_loopFields (o : Orch) (w : World) (ts : String)
    (hwf : loopWF (readData w.tc) = true) :
    loopFieldOf (phase_optimization o w ts).2.1.tc "current_iteration"
      = some (.num 5) ∧
    loopFieldOf (phase_optimization o w ts).2.1.tc "phase"
      = some (.str "optimization") := by
  obtain ⟨m, h1, h2, h3⟩ := tc_update_loop_fields w.tc 5 "optimization" .null ts hwf
  have hfin : infLoopOf (phase_optimization o w ts).2.1.tc = some (.obj m) := by
    simp only [phase_optimization]
    rw [winf_orch_log, winf_drain_fold, winf_broadcast, winf_tune_fold, winf_orch_log]
    exact h1
  constructor
  · simp only [loopFieldOf, hfin]
    exact h2
  · simp only [loopFieldOf, hfin]
    exact h3

theorem phase8_loopFields (o : Orch) (w : World) (ts : String)
    (hwf : loopWF (readData w.tc) = true) :
    loopFieldOf (phase_stabilization o w ts).2.1.tc "current_iteration"
      = some (.num 8) ∧
    loopFieldOf (phase_stabilization o w ts).2.1.tc "phase"
      = some (.str "stabilization") := by
  obtain ⟨m, h1, h2, h3⟩ := tc_update_loop_fields w.tc 8 "stabilization" .null ts hwf
  have hfin : infLoopOf (phase_stabilization o w ts).2.1.tc = some (.obj m) := by
    simp only [phase_stabilization]
    rw [winf_orch_log, winf_stab_fold, winf_orch_log]
    exact h1
  constructor
  · simp only [loopFieldOf, hfin]
    exact h2
  · simp only [loopFieldOf, hfin]
    exact h3

theorem phase_inter_loopFields (o : Orch) (w : World) (n : Int) (ts : String)
    (hwf : loopWF (readData w.tc) = true) :
    loopFieldOf (phase_intermediate o w n ts).2.1.tc "current_iteration"
      = some (.num n) ∧
    loopFieldOf (phase_intermediate o w n ts).2.1.tc "phase"
      = some (.str ("intermediate_" ++ toString n)) := by
  obtain ⟨m, h1, h2, h3⟩ :=
    tc_update_loop_fields w.tc n ("intermediate_" ++ toString n) .null ts hwf
  have hfin : infLoopOf (phase_intermediate o w n ts).2.1.tc = some (.obj m) := h1
  constructor
  · simp only [loopFieldOf, hfin]
    exact h2
  · simp only [loopFieldOf, hfin]
    exact h3

theorem phase3_fst (o : Orch) (w : World) (ts : String) :
    (phase_resonance_analysis o w ts).1 = { o with phase := "resonance_analysis" } :=
  rfl

theorem phase5_fst (o : Orch) (w : World) (ts : String) :
    (phase_optimization o w ts).1 = { o with phase := "optimization" } := rfl

theorem phase8_fst (o : Orch) (w : World) (ts : String) :
    (phase_stabilization o w ts).1
      = { o with phase := "stabilization", cycle_count := o.cycle_count + 1 } := rfl

theorem phase_inter_fst (o : Orch) (w : World) (n : Int) (ts : String) :
    (phase_intermediate o w n ts).1
      = { o with phase := "intermediate_" ++ toString n } := rfl

/-- **C3**: for every `n` in `1..8`, `run_iteration(n)` deterministically sets
the orchestrator's phase to `resonance_analysis` when `n = 3`, `optimization`
when `n = 5`, `stabilization` when `n = 8` and `intermediate_<n>` otherwise,
records `n` as the current iteration, and persists that phase and iteration
into the store's `infinity_loop` record. -/
theorem c3_run_iteration_phase (o : Orch) (w : World) (n : Int) (ts : String)
    (hn1 : 1 ≤ n) (hn2 : n ≤ 8) (hwf : WFtc w.tc = true) :
    (run_iteration o w n ts).1.phase = phaseOfIter n ∧
    (run_iteration o w n ts).1.current_iteration = n ∧
    loopFieldOf (run_iteration o w n ts).2.1.tc "current_iteration"
      = some (.num n) ∧
    loopFieldOf (run_iteration o w n ts).2.1.tc "phase"
      = some (.str (phaseOfIter n)) := by
  have hlw : loopWF (readData w.tc) = true := by
    unfold WFtc at hwf
    rw [Bool.and_eq_true, Bool.and_eq_true] at hwf
    exact hwf.2
  by_cases h3 : n = 3
  · subst h3
    have hr : run_iteration o w 3 ts
        = phase_resonance_analysis { o with current_iteration := 3 } w ts := rfl
    obtain ⟨hc, hp⟩ := phase3_loopFields { o with current_iteration := 3 } w ts hlw
    rw [hr]
    refine ⟨?_, ?_, hc, hp⟩
    · rw [phase3_fst]; rfl
    · rw [phase3_fst]
  by_cases h5 : n = 5
  · subst h5
    have hr : run_iteration o w 5 ts
        = phase_optimization { o with current_iteration := 5 } w ts := rfl
    obtain ⟨hc, hp⟩ := phase5_loopFields { o with current_iteration := 5 } w ts hlw
    rw [hr]
    refine ⟨?_, ?_, hc, hp⟩
    · rw [phase5_fst]; rfl
    · rw [phase5_fst]
  by_cases h8 : n = 8
  · subst h8
    have hr : run_iteration o w 8 ts
        = phase_stabilization { o with current_iteration := 8 } w ts := rfl
    obtain ⟨hc, hp⟩ := phase8_loopFields { o with current_iteration := 8 } w ts hlw
    rw [hr]
    refine ⟨?_, ?_, hc, hp⟩
    · rw [phase8_fst]; rfl
    · rw [phase8_fst]
  · have hr : run_iteration o w n ts
        = phase_intermediate { o with current_iteration := n } w n ts := by
      simp only [run_iteration, if_neg h3, if_neg h5, if_neg h8]
    obtain ⟨hc, hp⟩ :=
      phase_inter_loopFields { o with current_iteration := n } w n ts hlw
    rw [hr]
    have hph : phaseOfIter n = "intermediate_" ++ toString n := by
      simp only [phaseOfIter, if_neg h3, if_neg h5, if_neg h8]
    refine ⟨?_, ?_, hc, ?_⟩
    · rw [phase_inter_fst, hph]
    · rw [phase_inter_fst]
    · rw [hph]; exact hp

/-- **C3, witness**: `run_iteration(5)` on a freshly constructed orchestrator. -/
theorem c3_witness :
    WFtc c5_base.2.tc = true ∧
    ((run_iteration c5_base.1 c5_base.2 5 "t9").1.phase = phaseOfIter 5 ∧
     (run_iteration c5_base.1 c5_base.2 5 "t9").1.current_iteration = 5 ∧
     loopFieldOf (run_iteration c5_base.1 c5_base.2 5 "t9").2.1.tc
       "current_iteration" = some (.num 5) ∧
     loopFieldOf (run_iteration c5_base.1 c5_base.2 5 "t9").2.1.tc "phase"
       = some (.str (phaseOfIter 5))) :=
  ⟨rfl, c3_run_iteration_phase c5_base.1 c5_base.2 5 "t9" (by decide) (by decide) rfl⟩

/-! ### C5: what a full cycle leaves behind -/

/-- C5 (corrected): a `run_full_cycle()` whose eight `run_iteration` calls all
return ends with `cycle_count` incremented by exactly 1 (by the iteration-8
stabilization phase), `is_running == false` and `phase == "cycle_complete"`.
If an iteration raises, however, there is no `try`/`finally`: the exception
propagates and `is_running` remains `true`, with `current_iteration` and
`phase` those of the failing iteration (set before its first fallible
operation) — second conjunct, for a raise inside iteration 4, any starting
state. -/
theorem c5_full_cycle :
    (∀ (o : Orch) (w : World) (ts : String),
        ∃ o' w' s, run_full_cycle o w ts = .inr (o', w', s) ∧
          o'.cycle_count = o.cycle_count + 1 ∧ o'.is_running = false ∧
          o'.phase = "cycle_complete") ∧
    (∀ (o : Orch) (w : World) (ts : String),
        match run_full_cycle_failing_at 4 o w ts with
        | .inl ow => ow.1.is_running = true ∧ ow.1.phase = phaseOfIter 4 ∧
                     ow.1.current_iteration = 4
        | .inr _ => False) := by
  constructor
  · intro o w ts
    exact ⟨_, _, _, rfl, rfl, rfl, rfl⟩
  · intro o w ts
    exact ⟨rfl, rfl, rfl⟩

/-- C5, counterexample to the claim as stated: on a freshly constructed
orchestrator, when `run_iteration(4)` raises at its first fallible operation
(the `update_infinity_loop` store write, after `current_iteration = 4` and
`phase = "intermediate_4"` were assigned in memory) the orchestrator is left
with `is_running = true` and `phase = "intermediate_4"` — not
`is_running = false`, `phase = "cycle_complete"`. -/
theorem c5_claim_false :
    c5_fail_orch.is_running = true ∧
    c5_fail_orch.phase = "intermediate_4" ∧
    c5_fail_orch.current_iteration = 4 ∧
    ("intermediate_4" : String) ≠ "cycle_complete" :=
  ⟨rfl, rfl, rfl, by decide⟩

/-! ### C9: the phase-5 scenario with three registered agents -/

/-- C9 (confirmed): after registering three agents `A`, `B`, `C` (five
registered agents in all, counting the two the constructor pre-registers), a
single `run_iteration(5)` logs a broadcast communication from the cross agent
to every registered agent — in particular one for each of `A`, `B`, `C` — and
returns a result whose `optimization_actions` holds one entry per registered
agent recording the number of messages drained from that agent's inbox (one
each: the broadcast just delivered). -/
theorem c9_optimization_scenario :
    c9_base.1.registry
      = [("AE-Master", 0), ("Æ-Orchestrator", 1), ("A", 2), ("B", 3), ("C", 4)] ∧
    objField c9_run.2.2 "optimization_actions"
      = some (.arr [
          .obj [("agent", .str "AE-Master"), ("processed_messages", .num 1)],
          .obj [("agent", .str "Æ-Orchestrator"), ("processed_messages", .num 1)],
          .obj [("agent", .str "A"), ("processed_messages", .num 1)],
          .obj [("agent", .str "B"), ("processed_messages", .num 1)],
          .obj [("agent", .str "C"), ("processed_messages", .num 1)]]) ∧
    commsOf c9_run.2.1.tc
      = some [comm_record "Æ-Orchestrator" "AE-Master"
                "Optimization phase initiated" "t5",
              comm_record "Æ-Orchestrator" "Æ-Orchestrator"
                "Optimization phase initiated" "t5",
              comm_record "Æ-Orchestrator" "A" "Optimization phase initiated" "t5",
              comm_record "Æ-Orchestrator" "B" "Optimization phase initiated" "t5",
              comm_record "Æ-Orchestrator" "C" "Optimization phase initiated" "t5"] :=
  ⟨rfl, rfl, rfl⟩

/-! ### C10: duplicate-name registration -/

/-- C10 (confirmed): `register_agent` with an agent whose name is already
registered silently replaces the registry entry (a plain Python dict
assignment): no error path exists, nothing is merged, and the number of
registered agents is unchanged; every other entry is untouched. -/
theorem c10_register_replaces (o : Orch) (w : World) (i : Nat) (a : AgentObj)
    (ts : String) (ha : w.heap.get? i = some a)
    (hdup : (lookupKey o.registry a.name).isSome = true) :
    (register_agent o w i ts).1.registry.length = o.registry.length ∧
    lookupKey (register_agent o w i ts).1.registry a.name = some i ∧
    (∀ nm, nm ≠ a.name →
      lookupKey (register_agent o w i ts).1.registry nm
        = lookupKey o.registry nm) := by
  unfold register_agent
  simp only [ha]
  exact ⟨setKey_length_of_isSome _ _ _ hdup, lookupKey_setKey_self _ _ _,
         fun nm hnm => lookupKey_setKey_ne _ _ _ _ hnm⟩

/-- C10, witness: registering a fresh `MicroAgent` named `AE-Master` — a name
the constructor already registered — on a fresh orchestrator. -/
theorem c10_witness :
    c10_dup_setup.1.heap.get? c10_dup_setup.2
      = some (mkMicroAgent "AE-Master" "duplicate" "t1") ∧
    (lookupKey c5_base.1.registry "AE-Master").isSome = true ∧
    ((register_agent c5_base.1 c10_dup_setup.1 c10_dup_setup.2 "t2").1.registry.length
       = c5_base.1.registry.length ∧
     lookupKey (register_agent c5_base.1 c10_dup_setup.1 c10_dup_setup.2
         "t2").1.registry "AE-Master" = some c10_dup_setup.2) := by
  refine ⟨rfl, rfl, ?_, ?_⟩
  · exact (c10_register_replaces c5_base.1 c10_dup_setup.1 c10_dup_setup.2
      (mkMicroAgent "AE-Master" "duplicate" "t1") "t2" rfl rfl).1
  · exact (c10_register_replaces c5_base.1 c10_dup_setup.1 c10_dup_setup.2
      (mkMicroAgent "AE-Master" "duplicate" "t1") "t2" rfl rfl).2.1

end Vega
